import Mathlib

/-!
# Receipt processor: validation and points scoring

A shallow embedding of `main.go` (`validateReceiptPoints` and the data it works on) together
with the library operations it calls: `unicode.IsLetter` / `unicode.IsNumber`,
`strings.Trim`, `time.Parse` for the two layouts used, and the `shopspring/decimal`
operations `NewFromString`, `NewFromFloat`, `IsInteger`, `Mod`, `IsZero`, `Mul`, `Ceil`,
`IntPart`.

Conventions of the embedding:

* A Go `string` is a Lean `String` (a valid UTF-8 text, which is what the JSON decoder
  hands to the handler); `len` is the UTF-8 byte length and `range` yields the characters.
* `int64` values are integers kept in range by `wrapInt64`; `points += x` is
  `wrapInt64 (points + x)`.
* A `*Item` is an `Option Item`, `none` being the nil pointer.
* A Go `error` result is a `GoError`; a run-time panic is a separate outcome.
* The range tables of package `unicode` above Latin-1 are a parameter (`RangeTables`);
  the Latin-1 part of `unicode.properties` is written out.
* A `decimal.Decimal` is a pair of integers `value * 10 ^ exp`, the value a `*big.Int`
  and the exponent an `int32`. The operations follow shopspring/decimal v1.4.0, with the
  places where the exponent is computed in `int32` or checked against its range:
  `NewFromString` returns an error, `Mul` and `Mod` (through `QuoRem`) panic, and the
  `abs` of `IsInteger` wraps at `math.MinInt32`.
-/

namespace ReceiptProcessor

/-! ## Data model (main.go, lines 15-28) -/

/-- Item: the Go struct `Item`. -/
structure Item where
  ShortDescription : String
  Price : String
deriving DecidableEq, Repr

/-- Receipt: the Go struct `Receipt`; `Items` is a slice of pointers, `Points` an `int64`. -/
structure Receipt where
  Retailer : String
  PurchaseDate : String
  PurchaseTime : String
  Total : String
  Items : List (Option Item)
  Points : Int
deriving DecidableEq, Repr

/-- Error values that `validateReceiptPoints` can return: one made by `errors.New`, a
`*time.ParseError` (kept with its layout and value), or the error that
`decimal.NewFromString` builds with `fmt.Errorf` for an input it cannot convert. -/
inductive GoError where
  | errorsNew (text : String)
  | parseError (layout value : String)
  | decimalError (value : String)
deriving DecidableEq, Repr

/-- Abort: the two ways a block of the function stops early, `return err` or a panic. -/
inductive Abort where
  | returned (err : GoError)
  | panicked
deriving DecidableEq, Repr

/-- Outcome of a call: it returned (with `nil` or an error, leaving the receipt in the
given state) or it panicked. -/
inductive Outcome where
  | returned (err : Option GoError) (r : Receipt)
  | panicked
deriving DecidableEq, Repr

deriving instance DecidableEq for Except

/-! ## Machine integers -/

/-- The `int64` with the same low 64 bits as `x` (two's complement wrap-around). -/
def wrapInt64 (x : Int) : Int := (x + 2 ^ 63) % 2 ^ 64 - 2 ^ 63

/-- The `int32` with the same low 32 bits as `x`. -/
def wrapInt32 (x : Int) : Int := (x + 2 ^ 31) % 2 ^ 32 - 2 ^ 31

/-- Range of `int64`. -/
def isInt64 (x : Int) : Prop := -(2 ^ 63) ≤ x ∧ x < 2 ^ 63

instance (x : Int) : Decidable (isInt64 x) := by
  unfold isInt64; exact inferInstance

/-! ## Package `unicode` -/

/-- Membership in the range tables `unicode.Letter`, `unicode.Number` and `unicode.Digit`
for code points above Latin-1 (`isExcludingLatin`). The tables are data of the Go
standard library; the functions below take them as a parameter. -/
structure RangeTables where
  Letter : Nat → Bool
  Number : Nat → Bool
  Digit : Nat → Bool

/-- Tables with no entry, for evaluating inputs on which the tables are never consulted. -/
def emptyTables : RangeTables := ⟨fun _ => false, fun _ => false, fun _ => false⟩

/-- unicode.MaxLatin1. -/
def MaxLatin1 : Nat := 0xFF

/-- Latin-1 code points whose entry in `unicode.properties` has a letter bit. -/
def latin1Letter (r : Nat) : Bool :=
  (0x41 ≤ r && r ≤ 0x5A) || (0x61 ≤ r && r ≤ 0x7A) || r == 0xAA || r == 0xB5 || r == 0xBA ||
  (0xC0 ≤ r && r ≤ 0xD6) || (0xD8 ≤ r && r ≤ 0xF6) || (0xF8 ≤ r && r ≤ 0xFF)

/-- Latin-1 code points whose entry in `unicode.properties` has the number bit `pN`. -/
def latin1Number (r : Nat) : Bool :=
  (0x30 ≤ r && r ≤ 0x39) || r == 0xB2 || r == 0xB3 || r == 0xB9 || (0xBC ≤ r && r ≤ 0xBE)

/-- unicode.IsLetter: category L. -/
def IsLetter (T : RangeTables) (r : Nat) : Bool :=
  if r ≤ MaxLatin1 then latin1Letter r else T.Letter r

/-- unicode.IsNumber: category N. -/
def IsNumber (T : RangeTables) (r : Nat) : Bool :=
  if r ≤ MaxLatin1 then latin1Number r else T.Number r

/-- unicode.IsDigit: decimal digits, category Nd. -/
def IsDigit (T : RangeTables) (r : Nat) : Bool :=
  if r ≤ MaxLatin1 then (0x30 ≤ r && r ≤ 0x39) else T.Digit r

/-! ## Package `strings` and `len` -/

/-- The built-in `len` on a string: its number of bytes. -/
def len (s : String) : Nat := s.utf8ByteSize

/-- Drop the leading spaces (`trimLeftByte` with the byte `' '`). -/
def trimLeftSpaces : List Char → List Char
  | [] => []
  | c :: cs => if c = ' ' then trimLeftSpaces cs else c :: cs

/-- Drop the trailing spaces (`trimRightByte` with the byte `' '`). -/
def trimRightSpaces (s : List Char) : List Char := (trimLeftSpaces s.reverse).reverse

/-- strings.Trim(s, " "): with a one-byte ASCII cutset it is
`trimLeftByte(trimRightByte(s, ' '), ' ')`. -/
def TrimSpaces (s : String) : String := ⟨trimLeftSpaces (trimRightSpaces s.data)⟩

/-! ## Package `time`: `Parse` for the layouts "2006-01-02" and "15:04" -/

/-- Time value, as far as the two layouts can set it (UTC, seconds zero). -/
structure GoTime where
  year : Nat
  month : Nat
  day : Nat
  hour : Nat
  min : Nat
deriving DecidableEq, Repr

/-- The zero `time.Time`: January 1, year 1, 00:00. -/
def zeroTime : GoTime := ⟨1, 1, 1, 0, 0⟩

/-- Order key of a normalised time: earlier instants have smaller keys. -/
def GoTime.key (t : GoTime) : Nat :=
  (((t.year * 13 + t.month) * 32 + t.day) * 24 + t.hour) * 60 + t.min

/-- Time.After. -/
def GoTime.After (t u : GoTime) : Bool := decide (u.key < t.key)

/-- Time.Before. -/
def GoTime.Before (t u : GoTime) : Bool := decide (t.key < u.key)

/-- Time.Day. -/
def GoTime.Day (t : GoTime) : Nat := t.day

/-- Whether the character is an ASCII decimal digit. -/
def isDigitChar (c : Char) : Bool := 0x30 ≤ c.toNat && c.toNat ≤ 0x39

/-- Value of an ASCII digit (`c - '0'`). -/
def digitVal (c : Char) : Nat := c.toNat - 0x30

/-- The helper `getnum` of package time: a one- or two-digit number at the head of `s`;
with `fixed` two digits are required. -/
def getnum : List Char → Bool → Option (Nat × List Char)
  | [], _ => none
  | [c0], fixed =>
    if isDigitChar c0 then (if fixed then none else some (digitVal c0, [])) else none
  | c0 :: c1 :: rest, fixed =>
    if isDigitChar c0 then
      if isDigitChar c1 then some (digitVal c0 * 10 + digitVal c1, rest)
      else if fixed then none else some (digitVal c0, c1 :: rest)
    else none

/-- Layout element "2006" (`stdLongYear`): exactly four digits are taken. -/
def getLongYear : List Char → Option (Nat × List Char)
  | a :: b :: c :: d :: rest =>
    if isDigitChar a && isDigitChar b && isDigitChar c && isDigitChar d then
      some (digitVal a * 1000 + digitVal b * 100 + digitVal c * 10 + digitVal d, rest)
    else none
  | _ => none

/-- The helper `skip` of package time for a one-character literal of the layout. -/
def skipChar (value : List Char) (c : Char) : Option (List Char) :=
  match value with
  | [] => none
  | v :: rest => if v = c then some rest else none

/-- The helper `isLeap` of package time. -/
def isLeap (year : Nat) : Bool := year % 4 == 0 && (year % 100 != 0 || year % 400 == 0)

/-- The helper `daysIn` of package time. -/
def daysIn (month year : Nat) : Nat :=
  if month = 2 then (if isLeap year then 29 else 28)
  else if month = 4 ∨ month = 6 ∨ month = 9 ∨ month = 11 then 30 else 31

/-- Fields read by `time.Parse` under the layout "2006-01-02", before the error wrapping:
year, "-", two-digit month in 1..12, "-", two-digit day, no text left over, and a day
that exists in that month. -/
def parseDateFields (value : List Char) : Option GoTime :=
  match getLongYear value with
  | none => none
  | some (year, v1) =>
    match skipChar v1 '-' with
    | none => none
    | some v2 =>
      match getnum v2 true with
      | none => none
      | some (month, v3) =>
        if month = 0 ∨ 12 < month then none
        else
          match skipChar v3 '-' with
          | none => none
          | some v4 =>
            match getnum v4 true with
            | none => none
            | some (day, v5) =>
              if v5 ≠ [] then none
              else if day < 1 ∨ daysIn month year < day then none
              else some ⟨year, month, day, 0, 0⟩

/-- Fields read by `time.Parse` under the layout "15:04": hour (`getnum` not fixed, so one
or two digits) below 24, ":", two-digit minute below 60, no text left over. The date is
January 1 of year 0. -/
def parseClockFields (value : List Char) : Option GoTime :=
  match getnum value false with
  | none => none
  | some (hour, v1) =>
    if 24 ≤ hour then none
    else
      match skipChar v1 ':' with
      | none => none
      | some v2 =>
        match getnum v2 true with
        | none => none
        | some (min, v3) =>
          if 60 ≤ min then none
          else if v3 ≠ [] then none
          else some ⟨0, 1, 1, hour, min⟩

/-- The layout `dateLayout` of the source. -/
def dateLayout : String := "2006-01-02"

/-- The layout `timeLayout` of the source. -/
def timeLayout : String := "15:04"

/-- time.Parse(dateLayout, value). -/
def ParseDate (value : String) : Except GoError GoTime :=
  match parseDateFields value.data with
  | some t => .ok t
  | none => .error (.parseError dateLayout value)

/-- time.Parse(timeLayout, value). -/
def ParseClock (value : String) : Except GoError GoTime :=
  match parseClockFields value.data with
  | some t => .ok t
  | none => .error (.parseError timeLayout value)

/-- The time kept by `t, _ := time.Parse(...)`: the zero time when parsing failed. -/
def timeOrZero : Except GoError GoTime → GoTime
  | .ok t => t
  | .error _ => zeroTime

/-! ## Package `shopspring/decimal` -/

/-- Decimal: the number `value * 10 ^ exp`; `value` is a `*big.Int`, `exp` an `int32`. -/
structure Decimal where
  value : Int
  exp : Int
deriving DecidableEq, Repr

/-- The rational number a decimal stands for, `value * 10 ^ exp`. -/
def Decimal.toRat (d : Decimal) : ℚ :=
  if 0 ≤ d.exp then (d.value : ℚ) * 10 ^ d.exp.toNat else (d.value : ℚ) / 10 ^ (-d.exp).toNat

/-- Value of a string of decimal digits, most significant first, continuing from `acc`. -/
def digitsValue : List Char → Nat → Nat
  | [], acc => acc
  | c :: cs, acc => digitsValue cs (acc * 10 + digitVal c)

/-- Base-10 integer literal as read by `strconv.ParseInt(s, 10, 64)` on a short string and
by `big.Int.SetString(s, 10)`: an optional sign and then one or more digits, nothing else. -/
def parseSigned (s : List Char) : Option Int :=
  match s with
  | [] => none
  | c :: rest =>
    if c = '+' then
      (if rest ≠ [] ∧ rest.all isDigitChar then some (digitsValue rest 0 : Int) else none)
    else if c = '-' then
      (if rest ≠ [] ∧ rest.all isDigitChar then some (-(digitsValue rest 0 : Int)) else none)
    else
      (if s.all isDigitChar then some (digitsValue s 0 : Int) else none)

/-- Cut at the first 'E' or 'e' (`strings.IndexAny(value, "Ee")`): the text before it, and
the text after it when there is one. -/
def splitExponent : List Char → List Char × Option (List Char)
  | [] => ([], none)
  | c :: cs =>
    if c = 'E' ∨ c = 'e' then ([], some cs)
    else ((c :: (splitExponent cs).1), (splitExponent cs).2)

/-- decimal.NewFromString. The exponent after 'E'/'e' must be an `int32` literal; at most
one '.' is allowed; the digits with the '.' removed must be an integer literal; the final
exponent (exponent part minus the number of bytes after the '.') must fit in `int32`.
Every failure is reported as an error. -/
def NewFromString (value : String) : Except GoError Decimal :=
  let parts := splitExponent value.data
  let expInt : Option Int :=
    match parts.2 with
    | none => some 0
    | some e =>
      match parseSigned e with
      | none => none
      | some n => if -(2 ^ 31) ≤ n ∧ n < 2 ^ 31 then some n else none
  match expInt with
  | none => .error (.decimalError value)
  | some exp0 =>
    if 1 < parts.1.count '.' then .error (.decimalError value)
    else
      let intString := parts.1.filter (fun c => c != '.')
      let fraction := (parts.1.dropWhile (fun c => c != '.')).drop 1
      let exp := exp0 - (len ⟨fraction⟩ : Int)
      match parseSigned intString with
      | none => .error (.decimalError value)
      | some v =>
        if exp < -(2 ^ 31) ∨ 2 ^ 31 - 1 < exp then .error (.decimalError value)
        else .ok ⟨v, exp⟩

/-- decimal.NewFromFloat(.25): the shortest decimal that round-trips, 25 * 10^-2. -/
def quarter : Decimal := ⟨25, -2⟩

/-- decimal.NewFromFloat(.2): the shortest decimal that round-trips, 2 * 10^-1. -/
def fifth : Decimal := ⟨2, -1⟩

/-- The loop of `Decimal.IsInteger`: `z` times, divide by ten (truncating) and stop with
`false` at the first non-zero remainder. -/
def isIntegerLoop : Nat → Int → Bool
  | 0, _ => true
  | z + 1, q => if q.tmod 10 ≠ 0 then false else isIntegerLoop z (q.tdiv 10)

/-- The helper `abs` of the package on an `int32`: `-n` is an `int32` negation, so
`abs(math.MinInt32)` is `math.MinInt32` again. -/
def absInt32 (n : Int) : Int := if n < 0 then wrapInt32 (-n) else n

/-- Decimal.IsInteger: `true` for an exponent that is not negative; otherwise the loop
`for z := abs(d.exp); z > 0; z--`, which does not run at all when `abs` has wrapped to a
negative number. -/
def Decimal.IsInteger (d : Decimal) : Bool :=
  if 0 ≤ d.exp then true else isIntegerLoop (absInt32 d.exp).toNat d.value

/-- Decimal.Mod: the remainder of `QuoRem(d2, 0)`. `QuoRem` panics (`none`) on a zero
divisor and when the difference of the two exponents, taken in `int64`, leaves `int32`;
otherwise it is a truncating division of the two values brought to a common exponent. -/
def Decimal.Mod (d d2 : Decimal) : Option Decimal :=
  if d2.value = 0 then none
  else
    let e := d.exp - d2.exp
    if 2 ^ 31 - 1 < e ∨ e < -(2 ^ 31) then none
    else if e < 0 then some ⟨d.value.tmod (d2.value * 10 ^ (-e).toNat), d.exp⟩
    else some ⟨(d.value * 10 ^ e.toNat).tmod d2.value, d2.exp⟩

/-- Decimal.IsZero. -/
def Decimal.IsZero (d : Decimal) : Bool := d.value == 0

/-- Decimal.Mul: the product; it panics (`none`) when the sum of the exponents leaves
`int32`. -/
def Decimal.Mul (d d2 : Decimal) : Option Decimal :=
  let expInt64 := d.exp + d2.exp
  if 2 ^ 31 - 1 < expInt64 ∨ expInt64 < -(2 ^ 31) then none
  else some ⟨d.value * d2.value, expInt64⟩

/-- Decimal.Ceil: for a negative exponent `big.Int.DivMod` (Euclidean) by `10 ^ -exp`,
plus one when the remainder is not zero. -/
def Decimal.Ceil (d : Decimal) : Decimal :=
  if 0 ≤ d.exp then d
  else
    let e : Int := 10 ^ (-d.exp).toNat
    let z := d.value / e
    let m := d.value % e
    ⟨if m ≠ 0 then z + 1 else z, 0⟩

/-- Decimal.rescale(0): the value at exponent 0, truncating toward zero. -/
def Decimal.rescale0 (d : Decimal) : Decimal :=
  if d.exp = 0 then d
  else if d.exp < 0 then ⟨d.value.tdiv (10 ^ (-d.exp).toNat), 0⟩
  else ⟨d.value * 10 ^ d.exp.toNat, 0⟩

/-- Decimal.IntPart: `rescale(0)` and then `big.Int.Int64`, which keeps the low 64 bits. -/
def Decimal.IntPart (d : Decimal) : Int := wrapInt64 d.rescale0.value

/-! ## validateReceiptPoints (main.go, lines 72-158)

Each block of the function is a step from the value of the local `points` before it to
the value after it, or an abort. -/

/-- Rule 1 (lines 80-84): the loop `for _, character := range r.Retailer`. -/
def retailerLoop (T : RangeTables) : List Char → Int → Int
  | [], points => points
  | character :: rest, points =>
    retailerLoop T rest
      (if IsLetter T character.toNat || IsNumber T character.toNat then wrapInt64 (points + 1)
       else points)

/-- CHECK RETAILER (lines 75-84). -/
def checkRetailer (T : RangeTables) (retailer : String) (points : Int) : Except Abort Int :=
  if retailer = "" then .error (.returned (.errorsNew "empty name"))
  else .ok (retailerLoop T retailer.data points)

/-- CHECK DATE (lines 86-98). -/
def checkDate (purchaseDate : String) (points : Int) : Except Abort Int :=
  if purchaseDate = "" then .error (.returned (.errorsNew "empty date"))
  else
    match ParseDate purchaseDate with
    | .error err => .error (.returned err)
    | .ok datePurchased =>
      if datePurchased.Day % 2 = 1 then .ok (wrapInt64 (points + 6)) else .ok points

/-- CHECK TIME (lines 100-114). -/
def checkTime (purchaseTime : String) (points : Int) : Except Abort Int :=
  if purchaseTime = "" then .error (.returned (.errorsNew "empty time"))
  else
    match ParseClock purchaseTime with
    | .error err => .error (.returned err)
    | .ok timePurchased =>
      let startTime := timeOrZero (ParseClock "14:00")
      let endTime := timeOrZero (ParseClock "16:00")
      if timePurchased.After startTime && timePurchased.Before endTime then
        .ok (wrapInt64 (points + 10))
      else .ok points

/-- CHECK TOTAL (lines 116-128). A panic inside `total.Mod` ends the call. -/
def checkTotal (total : String) (points : Int) : Except Abort Int :=
  match NewFromString total with
  | .error err => .error (.returned err)
  | .ok total =>
    let points := if total.IsInteger then wrapInt64 (points + 50) else points
    match total.Mod quarter with
    | none => .error .panicked
    | some remainder =>
      if remainder.IsZero then .ok (wrapInt64 (points + 25)) else .ok points

/-- Body of the loop over the items (lines 135-153) for the index `i`. Reading
`item.ShortDescription` through a nil pointer panics. -/
def itemStep (i : Nat) (item : Option Item) (points : Int) : Except Abort Int :=
  let points := if i % 2 = 1 then wrapInt64 (points + 5) else points
  match item with
  | none => .error .panicked
  | some item =>
    let trimmed := TrimSpaces item.ShortDescription
    let size := len trimmed
    if size % 3 = 0 then
      match NewFromString item.Price with
      | .error err => .error (.returned err)
      | .ok price =>
        match fifth.Mul price with
        | none => .error .panicked
        | some price => .ok (wrapInt64 (points + price.Ceil.IntPart))
    else .ok points

/-- The loop `for i, item := range r.Items` (lines 134-154), from index `i` on. -/
def itemsLoop : Nat → List (Option Item) → Int → Except Abort Int
  | _, [], points => .ok points
  | i, item :: rest, points =>
    match itemStep i item points with
    | .error a => .error a
    | .ok points => itemsLoop (i + 1) rest points

/-- CHECK ITEMS (lines 130-154). -/
def checkItems (items : List (Option Item)) (points : Int) : Except Abort Int :=
  if items.length < 1 then .error (.returned (.errorsNew "minimum 1 item"))
  else itemsLoop 0 items points

/-- Value of `points` after the retailer block, starting from `var points int64 = 0`. -/
def pointsAfterRetailer (T : RangeTables) (r : Receipt) : Except Abort Int :=
  checkRetailer T r.Retailer 0

/-- Value of `points` after the date block. -/
def pointsAfterDate (T : RangeTables) (r : Receipt) : Except Abort Int :=
  match pointsAfterRetailer T r with
  | .error a => .error a
  | .ok points => checkDate r.PurchaseDate points

/-- Value of `points` after the time block. -/
def pointsAfterTime (T : RangeTables) (r : Receipt) : Except Abort Int :=
  match pointsAfterDate T r with
  | .error a => .error a
  | .ok points => checkTime r.PurchaseTime points

/-- Value of `points` after the total block. -/
def pointsAfterTotal (T : RangeTables) (r : Receipt) : Except Abort Int :=
  match pointsAfterTime T r with
  | .error a => .error a
  | .ok points => checkTotal r.Total points

/-- Value of `points` after the items block, when line 156 is reached. -/
def pointsAfterItems (T : RangeTables) (r : Receipt) : Except Abort Int :=
  match pointsAfterTotal T r with
  | .error a => .error a
  | .ok points => checkItems r.Items points

/-- validateReceiptPoints: on success `r.Points = points` is the only write and `nil` is
returned; on an early `return err` the receipt is left as it was. -/
def validateReceiptPoints (T : RangeTables) (r : Receipt) : Outcome :=
  match pointsAfterItems T r with
  | .ok points => .returned none { r with Points := points }
  | .error (.returned err) => .returned (some err) r
  | .error .panicked => .panicked

/-! ## The seven rules as exact amounts

A second description of the score, following the rule table of the specification: the
amount each rule contributes, as an unbounded integer. The theorems below compare it with
`validateReceiptPoints`. The amount of rules 4 and 5 is written with the two tests of the
package, `IsInteger` and a zero remainder modulo 0.25; `Decimal.isInteger_iff` and
`Decimal.mod_quarter` say when these are the tests of the rule table. -/

/-- Rule 1: the number of characters of the retailer name that are letters or numbers. -/
def rule1Amount (T : RangeTables) (retailer : String) : Int :=
  (retailer.data.countP (fun c => IsLetter T c.toNat || IsNumber T c.toNat) : Nat)

/-- Rule 2: 6 when the day of the month is odd. -/
def rule2Amount (purchaseDate : String) : Int :=
  match ParseDate purchaseDate with
  | .ok t => if t.day % 2 = 1 then 6 else 0
  | .error _ => 0

/-- Rule 3: 10 when the time of day is strictly between 14:00 and 16:00. -/
def rule3Amount (purchaseTime : String) : Int :=
  match ParseClock purchaseTime with
  | .ok t => if 14 * 60 < t.hour * 60 + t.min ∧ t.hour * 60 + t.min < 16 * 60 then 10 else 0
  | .error _ => 0

/-- Rules 4 and 5: 50 for a total that `IsInteger` holds of, 25 for a total whose remainder
modulo 0.25 is zero. -/
def rule45Amount (total : String) : Int :=
  match NewFromString total with
  | .ok d =>
    (if d.IsInteger then 50 else 0) +
      (match d.Mod quarter with
        | some remainder => if remainder.IsZero then 25 else 0
        | none => 0)
  | .error _ => 0

/-- Rule 6: 5 for every two items. -/
def rule6Amount (items : List (Option Item)) : Int := 5 * ((items.length / 2 : Nat) : Int)

/-- Rule 7 for one item: the ceiling of a fifth of the price when the byte length of the
trimmed description is a multiple of 3. -/
def rule7Amount (item : Option Item) : Int :=
  match item with
  | none => 0
  | some item =>
    if len (TrimSpaces item.ShortDescription) % 3 = 0 then
      match NewFromString item.Price with
      | .ok price => ⌈(1 / 5 : ℚ) * price.toRat⌉
      | .error _ => 0
    else 0

/-- Rule 7 over the item list. -/
def rule7Sum (items : List (Option Item)) : Int := (items.map rule7Amount).sum

/-- Sum of the seven rules, without any wrap-around. -/
def exactPoints (T : RangeTables) (r : Receipt) : Int :=
  rule1Amount T r.Retailer + rule2Amount r.PurchaseDate + rule3Amount r.PurchaseTime +
    rule45Amount r.Total + rule6Amount r.Items + rule7Sum r.Items

/-! ## Sample receipts -/

/-- The five items of the reference receipt. -/
def classicItems : List (Option Item) :=
  [some ⟨"Mountain Dew 12PK", "6.49"⟩, some ⟨"Emils Cheese Pizza", "12.25"⟩,
   some ⟨"Knorr Creamy Chicken", "1.26"⟩, some ⟨"Doritos Nacho Cheese", "3.35"⟩,
   some ⟨"   Klarbrunn 12-PK 12 FL OZ  ", "12.00"⟩]

/-- The reference receipt (retailer "Target"), with `points0` in its `Points` field. -/
def classicReceipt (points0 : Int) : Receipt :=
  ⟨"Target", "2022-01-01", "13:01", "35.35", classicItems, points0⟩

/-- A second sample receipt: "M&M Corner Market", four items, bought at 14:33. -/
def marketReceipt : Receipt :=
  ⟨"M&M Corner Market", "2022-03-20", "14:33", "9.00",
   [some ⟨"Gatorade", "2.25"⟩, some ⟨"Gatorade", "2.25"⟩, some ⟨"Gatorade", "2.25"⟩,
    some ⟨"Gatorade", "2.25"⟩], 0⟩

/-- A third sample receipt: one item whose description has 18 bytes. -/
def pizzaReceipt : Receipt :=
  ⟨"Target", "2022-01-01", "13:01", "35.35", [some ⟨"Emils Cheese Pizza", "12.25"⟩], 0⟩

/-- A receipt whose retailer is the single character U+00BD (vulgar fraction one half), a
number that is not a digit; no other rule gives it points. -/
def halfReceipt : Receipt :=
  ⟨"½", "2022-03-20", "13:33", "9.01", [some ⟨"ab", "1.00"⟩], 0⟩

/-- A receipt with one item of negative price. -/
def refundReceipt : Receipt :=
  ⟨"Target", "2022-01-02", "13:01", "35.35", [some ⟨"abc", "-100.00"⟩], 0⟩

/-- A receipt with one item whose price is the text "abc", under the given description. -/
def badPriceReceipt (description : String) : Receipt :=
  ⟨"Target", "2022-01-01", "13:01", "35.35", [some ⟨description, "abc"⟩], 0⟩

/-- A receipt whose total has three fractional digits. -/
def milliReceipt : Receipt :=
  ⟨"Target", "2022-01-01", "13:01", "12.345", [some ⟨"ab", "1.00"⟩], 0⟩

/-- Two ASCII digits for a number below 100, as in "07". -/
def twoDigits (n : Nat) : List Char := [Char.ofNat (0x30 + n / 10), Char.ofNat (0x30 + n % 10)]

/-- The text "HH:MM" of an hour and a minute. -/
def clockText (hour minute : Nat) : String := ⟨twoDigits hour ++ ':' :: twoDigits minute⟩

/-! ## getPoints (main.go, lines 35-43) -/

/-- A value of a JSON response body, as far as the handlers write one. -/
inductive JsonValue where
  | str (s : String)
  | int (n : Int)
deriving DecidableEq, Repr

/-- What `c.IndentedJSON(code, obj)` writes: the HTTP status code and the members of the
object. -/
structure Response where
  status : Nat
  body : List (String × JsonValue)
deriving DecidableEq, Repr

/-- http.StatusNotFound. -/
def StatusNotFound : Nat := 404

/-- http.StatusOK. -/
def StatusOK : Nat := 200

/-- getPoints: `Receipts` is the global map (a lookup that fails for an absent key), `id`
the path parameter `c.Param("id")`. -/
def getPoints (Receipts : String → Option Receipt) (id : String) : Response :=
  match Receipts id with
  | none => ⟨StatusNotFound, [("description", .str "No receipt found for that id")]⟩
  | some receipt => ⟨StatusOK, [("points", .int receipt.Points)]⟩

/-! ## Well-formed dates and times, in the words of the specification -/

/-- Number of days of a month of the Gregorian calendar; a year is a leap year when it is
divisible by 4 and not by 100, or divisible by 400. -/
def calendarDays (year month : Nat) : Nat :=
  match month with
  | 1 => 31
  | 2 => if (year % 4 = 0 ∧ year % 100 ≠ 0) ∨ year % 400 = 0 then 29 else 28
  | 3 => 31
  | 4 => 30
  | 5 => 31
  | 6 => 30
  | 7 => 31
  | 8 => 31
  | 9 => 30
  | 10 => 31
  | 11 => 30
  | 12 => 31
  | _ => 0

/-- A text YYYY-MM-DD (four digits, "-", two digits, "-", two digits) that names a real
calendar date: month 1 to 12 and a day that the month has. -/
def isCalendarDate (s : String) : Bool :=
  match s.data with
  | [y1, y2, y3, y4, s1, m1, m2, s2, d1, d2] =>
    isDigitChar y1 && isDigitChar y2 && isDigitChar y3 && isDigitChar y4 &&
    s1 == '-' && isDigitChar m1 && isDigitChar m2 && s2 == '-' &&
    isDigitChar d1 && isDigitChar d2 &&
    decide (1 ≤ digitVal m1 * 10 + digitVal m2) && decide (digitVal m1 * 10 + digitVal m2 ≤ 12) &&
    decide (1 ≤ digitVal d1 * 10 + digitVal d2) &&
    decide (digitVal d1 * 10 + digitVal d2 ≤
      calendarDays (digitVal y1 * 1000 + digitVal y2 * 100 + digitVal y3 * 10 + digitVal y4)
        (digitVal m1 * 10 + digitVal m2))
  | _ => false

/-- A text HH:MM with exactly two digits of hour (00 to 23), ":", and two digits of
minute (00 to 59). -/
def isTwoDigitClock (s : String) : Bool :=
  match s.data with
  | [h1, h2, c, m1, m2] =>
    isDigitChar h1 && isDigitChar h2 && c == ':' && isDigitChar m1 && isDigitChar m2 &&
    decide (digitVal h1 * 10 + digitVal h2 < 24) && decide (digitVal m1 * 10 + digitVal m2 < 60)
  | _ => false

/-- A text H:MM with one digit of hour, ":", and two digits of minute (00 to 59). -/
def isOneDigitClock (s : String) : Bool :=
  match s.data with
  | [h1, c, m1, m2] =>
    isDigitChar h1 && c == ':' && isDigitChar m1 && isDigitChar m2 &&
    decide (digitVal m1 * 10 + digitVal m2 < 60)
  | _ => false

/-! ## More sample receipts -/

/-- A receipt with two items whose prices are not decimals; only the second description
has a byte length that is a multiple of 3. -/
def twoBadPricesReceipt : Receipt :=
  ⟨"Target", "2022-01-01", "13:01", "35.35", [some ⟨"ab", "abc"⟩, some ⟨"abc", "xyz"⟩], 0⟩

/-- A receipt whose item list holds one nil pointer, as the JSON `"items": [null]` gives. -/
def nilItemReceipt : Receipt :=
  ⟨"Target", "2022-01-01", "13:01", "35.35", [none], 0⟩

/-- A receipt bought at "9:05", an hour written with one digit. -/
def morningReceipt : Receipt :=
  ⟨"Target", "2022-01-01", "9:05", "35.35", [some ⟨"ab", "1.00"⟩], 0⟩

/-- A map of receipts with the single key "abc", holding the scored sample receipt. -/
def sampleReceipts : String → Option Receipt :=
  fun id => if id = "abc" then some { marketReceipt with Points := 109 } else none

/-- A receipt whose only item has a description of one character and three bytes. -/
def oneCharReceipt : Receipt :=
  ⟨"Target", "2022-01-01", "13:01", "35.35", [some ⟨"日", "12.25"⟩], 0⟩

/-- A receipt whose only item has a description of three characters and four bytes. -/
def threeCharReceipt : Receipt :=
  ⟨"Target", "2022-01-01", "13:01", "35.35", [some ⟨"abé", "12.25"⟩], 0⟩

/-- A receipt whose only item has a price of which a fifth is 2^63. -/
def hugePriceReceipt : Receipt :=
  ⟨"Target", "2022-01-01", "13:01", "35.35", [some ⟨"abc", "46116860184273879040"⟩], 0⟩

/-- The text `s` spells the integer `n` in base 10: an optional sign, '+' or '-', and then
one or more digits. -/
def spellsInteger (s : List Char) (n : Int) : Prop :=
  ∃ digits : List Char, digits ≠ [] ∧ (∀ c ∈ digits, isDigitChar c = true) ∧
    ((s = digits ∧ n = (digitsValue digits 0 : Int)) ∨
      (s = '+' :: digits ∧ n = (digitsValue digits 0 : Int)) ∨
      (s = '-' :: digits ∧ n = -(digitsValue digits 0 : Int)))

/-- The text `s` spells the decimal `d`. The text is a mantissa, and optionally 'e' or 'E'
and an exponent `n`, an integer text within `int32` (`n` is 0 without it). The mantissa is
`a`, or `a`, a '.' and `b`, where `a` followed by `b` spells the integer `d.value`. The
exponent of `d` is `n` minus the length of `b`, and lies within `int32`. -/
def spellsDecimal (s : List Char) (d : Decimal) : Prop :=
  ∃ (a b tail : List Char) (n : Int),
    ((s = a ++ tail ∧ b = []) ∨ s = a ++ ('.' :: b) ++ tail) ∧
    ((tail = [] ∧ n = 0) ∨
      ∃ c expo, (c = 'e' ∨ c = 'E') ∧ tail = c :: expo ∧ spellsInteger expo n ∧
        -(2 ^ 31) ≤ n ∧ n < 2 ^ 31) ∧
    spellsInteger (a ++ b) d.value ∧
    d.exp = n - (b.length : Int) ∧ -(2 ^ 31) ≤ d.exp ∧ d.exp < 2 ^ 31

/-- The texts that spell a decimal. -/
def isDecimalText (s : String) : Prop := ∃ d, spellsDecimal s.data d

/-! ## Theorems -/

set_option maxRecDepth 100000

/-! ### `int64` arithmetic -/

/-- A wrapped value is in the `int64` range. -/
theorem wrapInt64_isInt64 (x : Int) : isInt64 (wrapInt64 x) := by
  unfold isInt64 wrapInt64; omega

/-- Wrapping leaves a value of the `int64` range as it is. -/
theorem wrapInt64_of_isInt64 {x : Int} (h : isInt64 x) : wrapInt64 x = x := by
  unfold isInt64 at h; unfold wrapInt64; omega

/-- Wrapping the left summand first does not change a wrapped sum. -/
theorem wrapInt64_add_left (a b : Int) : wrapInt64 (wrapInt64 a + b) = wrapInt64 (a + b) := by
  unfold wrapInt64; omega

/-- Wrapping the right summand first does not change a wrapped sum. -/
theorem wrapInt64_add_right (a b : Int) : wrapInt64 (a + wrapInt64 b) = wrapInt64 (a + b) := by
  unfold wrapInt64; omega

/-! ### The five blocks in sequence -/

/-- Acceptance unfolds into the chain of the five blocks. -/
theorem accepted_chain {T : RangeTables} {r r' : Receipt}
    (h : validateReceiptPoints T r = .returned none r') :
    ∃ p1 p2 p3 p4 p5,
      pointsAfterRetailer T r = .ok p1 ∧ pointsAfterDate T r = .ok p2 ∧
      pointsAfterTime T r = .ok p3 ∧ pointsAfterTotal T r = .ok p4 ∧
      pointsAfterItems T r = .ok p5 ∧
      checkDate r.PurchaseDate p1 = .ok p2 ∧ checkTime r.PurchaseTime p2 = .ok p3 ∧
      checkTotal r.Total p3 = .ok p4 ∧ checkItems r.Items p4 = .ok p5 ∧
      r' = { r with Points := p5 } := by
  unfold validateReceiptPoints at h
  cases h5 : pointsAfterItems T r with
  | error a =>
    rw [h5] at h
    cases a <;> simp at h
  | ok p5 =>
    rw [h5] at h
    simp at h
    unfold pointsAfterItems at h5
    cases h4 : pointsAfterTotal T r with
    | error a => rw [h4] at h5; simp at h5
    | ok p4 =>
      rw [h4] at h5
      unfold pointsAfterTotal at h4
      cases h3 : pointsAfterTime T r with
      | error a => rw [h3] at h4; simp at h4
      | ok p3 =>
        rw [h3] at h4
        unfold pointsAfterTime at h3
        cases h2 : pointsAfterDate T r with
        | error a => rw [h2] at h3; simp at h3
        | ok p2 =>
          rw [h2] at h3
          unfold pointsAfterDate at h2
          cases h1 : pointsAfterRetailer T r with
          | error a => rw [h1] at h2; simp at h2
          | ok p1 =>
            rw [h1] at h2
            exact ⟨p1, p2, p3, p4, p5, rfl, rfl, rfl, rfl, rfl, h2, h3, h4, h5, h.symm⟩

/-- Five successful blocks give an accepted receipt. -/
theorem accepted_of_blocks {T : RangeTables} {r : Receipt} {p1 p2 p3 p4 p5 : Int}
    (h1 : checkRetailer T r.Retailer 0 = .ok p1) (h2 : checkDate r.PurchaseDate p1 = .ok p2)
    (h3 : checkTime r.PurchaseTime p2 = .ok p3) (h4 : checkTotal r.Total p3 = .ok p4)
    (h5 : checkItems r.Items p4 = .ok p5) :
    validateReceiptPoints T r = .returned none { r with Points := p5 } := by
  simp only [validateReceiptPoints, pointsAfterItems, pointsAfterTotal, pointsAfterTime,
    pointsAfterDate, pointsAfterRetailer, h1, h2, h3, h4, h5]

/-! ### C1: the reference receipt -/

/-- C1 (as amended): the reference receipt is accepted and its `Points` is set to 28,
whatever the range tables and whatever `Points` held before. -/
theorem classic_receipt_points (T : RangeTables) (points0 : Int) :
    validateReceiptPoints T (classicReceipt points0) =
      .returned none { classicReceipt points0 with Points := 28 } := by
  have h1 : checkRetailer T "Target" 0 = .ok 6 := rfl
  have h2 : checkDate "2022-01-01" 6 = .ok 12 := by decide
  have h3 : checkTime "13:01" 12 = .ok 12 := by decide
  have h4 : checkTotal "35.35" 12 = .ok 12 := by decide
  have h5 : checkItems classicItems 12 = .ok 28 := by decide
  exact accepted_of_blocks h1 h2 h3 h4 h5

/-- C1 (counterexample): on the reference receipt the call returns nil with `Points` 28,
so it does not set `Points` to 31. -/
theorem classic_receipt_not_31 :
    validateReceiptPoints emptyTables (classicReceipt 0) =
        .returned none { classicReceipt 0 with Points := 28 } ∧
      ¬ ∃ r', validateReceiptPoints emptyTables (classicReceipt 0) = .returned none r' ∧
        r'.Points = 31 := by
  have h : validateReceiptPoints emptyTables (classicReceipt 0) =
      .returned none { classicReceipt 0 with Points := 28 } := by decide
  refine ⟨h, ?_⟩
  rintro ⟨r', h1, h2⟩
  rw [h] at h1
  cases h1
  simp at h2

/-- The second sample receipt is accepted with 109 points. -/
theorem marketReceipt_accepted (T : RangeTables) :
    validateReceiptPoints T marketReceipt = .returned none { marketReceipt with Points := 109 } := by
  have h1 : checkRetailer T "M&M Corner Market" 0 = .ok 14 := rfl
  have h2 : checkDate "2022-03-20" 14 = .ok 14 := by decide
  have h3 : checkTime "14:33" 14 = .ok 24 := by decide
  have h4 : checkTotal "9.00" 24 = .ok 99 := by decide
  have h5 : checkItems marketReceipt.Items 99 = .ok 109 := by decide
  exact accepted_of_blocks h1 h2 h3 h4 h5

/-- What the date block does once the date has parsed. -/
theorem checkDate_ok {s : String} {p p' : Int} (h : checkDate s p = .ok p') :
    ∃ t, ParseDate s = .ok t ∧ p' = if t.Day % 2 = 1 then wrapInt64 (p + 6) else p := by
  unfold checkDate at h
  split at h
  · simp at h
  · cases hp : ParseDate s with
    | error e => rw [hp] at h; simp at h
    | ok t =>
      rw [hp] at h
      refine ⟨t, rfl, ?_⟩
      by_cases hd : t.Day % 2 = 1
      · simp [hd] at h; simp [hd, h]
      · simp [hd] at h; simp [hd, h]

/-! ### C8: rule 2 -/

/-- C8: in an accepted receipt the purchase date parses, and the date block takes the
points `p1` left by the retailer block to `p1 + 6` (an `int64` addition) exactly when the
day of the month is odd, and leaves them at `p1` when it is even. -/
theorem rule2_odd_day (T : RangeTables) (r r' : Receipt)
    (h : validateReceiptPoints T r = .returned none r') :
    ∃ p1 p2 t, pointsAfterRetailer T r = .ok p1 ∧ pointsAfterDate T r = .ok p2 ∧
      ParseDate r.PurchaseDate = .ok t ∧
      (p2 = wrapInt64 (p1 + 6) ↔ t.Day % 2 = 1) ∧ (p2 = p1 ↔ t.Day % 2 = 0) := by
  obtain ⟨p1, p2, p3, p4, p5, h1, h2, -, -, -, hd, -⟩ := accepted_chain h
  obtain ⟨t, ht, hp⟩ := checkDate_ok hd
  refine ⟨p1, p2, t, h1, h2, ht, ?_, ?_⟩
  · by_cases hodd : t.Day % 2 = 1
    · simp [hodd] at hp; simp [hodd, hp]
    · simp [hodd] at hp
      simp only [hodd, iff_false, hp]
      unfold wrapInt64; omega
  · by_cases hodd : t.Day % 2 = 1
    · simp [hodd] at hp
      have : ¬ t.Day % 2 = 0 := by omega
      simp only [this, iff_false, hp]
      unfold wrapInt64; omega
    · simp [hodd] at hp
      have : t.Day % 2 = 0 := by omega
      simp [this, hp]

/-- C8 (witness): the sample receipt dated 2022-03-20 is accepted; its day is even. -/
theorem rule2_odd_day_witness :
    validateReceiptPoints emptyTables marketReceipt =
        .returned none { marketReceipt with Points := 109 } ∧
      ∃ p1 p2 t, pointsAfterRetailer emptyTables marketReceipt = .ok p1 ∧
        pointsAfterDate emptyTables marketReceipt = .ok p2 ∧
        ParseDate marketReceipt.PurchaseDate = .ok t ∧
        (p2 = wrapInt64 (p1 + 6) ↔ t.Day % 2 = 1) ∧ (p2 = p1 ↔ t.Day % 2 = 0) :=
  ⟨marketReceipt_accepted emptyTables,
    rule2_odd_day emptyTables marketReceipt _ (marketReceipt_accepted emptyTables)⟩

/-- A time read under the layout "15:04" lies on January 1 of year 0. -/
theorem parseClockFields_shape {v : List Char} {t : GoTime} (h : parseClockFields v = some t) :
    t.year = 0 ∧ t.month = 1 ∧ t.day = 1 ∧ t.hour < 24 ∧ t.min < 60 := by
  unfold parseClockFields at h
  split at h
  · simp at h
  · split at h
    · simp at h
    · split at h
      · simp at h
      · split at h
        · simp at h
        · split at h
          · simp at h
          · split at h
            · simp at h
            · simp at h
              subst h
              simp
              omega

/-- What the time block does once the time has parsed. -/
theorem checkTime_ok {s : String} {p p' : Int} (h : checkTime s p = .ok p') :
    ∃ t, ParseClock s = .ok t ∧ t.min < 60 ∧
      p' = if 14 * 60 < t.hour * 60 + t.min ∧ t.hour * 60 + t.min < 16 * 60
        then wrapInt64 (p + 10) else p := by
  unfold checkTime at h
  split at h
  · simp at h
  · cases hp : ParseClock s with
    | error e => rw [hp] at h; simp at h
    | ok t =>
      rw [hp] at h
      have hs : parseClockFields s.data = some t := by
        unfold ParseClock at hp
        cases hf : parseClockFields s.data with
        | none => rw [hf] at hp; simp at hp
        | some t' => rw [hf] at hp; simp at hp; rw [hp]
      obtain ⟨hy, hm, hd, hh, hmin⟩ := parseClockFields_shape hs
      have h14 : timeOrZero (ParseClock "14:00") = ⟨0, 1, 1, 14, 0⟩ := by decide
      have h16 : timeOrZero (ParseClock "16:00") = ⟨0, 1, 1, 16, 0⟩ := by decide
      simp only [h14, h16, GoTime.After, GoTime.Before, GoTime.key, hy, hm, hd] at h
      refine ⟨t, rfl, hmin, ?_⟩
      by_cases hc : 14 * 60 < t.hour * 60 + t.min ∧ t.hour * 60 + t.min < 16 * 60
      · have c1 : (((0 * 13 + 1) * 32 + 1) * 24 + 14) * 60 + 0 <
            (((0 * 13 + 1) * 32 + 1) * 24 + t.hour) * 60 + t.min := by omega
        have c2 : (((0 * 13 + 1) * 32 + 1) * 24 + t.hour) * 60 + t.min <
            (((0 * 13 + 1) * 32 + 1) * 24 + 16) * 60 + 0 := by omega
        simp [c1, c2] at h
        simp [hc, h]
      · have c : ¬ ((((0 * 13 + 1) * 32 + 1) * 24 + 14) * 60 + 0 <
            (((0 * 13 + 1) * 32 + 1) * 24 + t.hour) * 60 + t.min ∧
            (((0 * 13 + 1) * 32 + 1) * 24 + t.hour) * 60 + t.min <
            (((0 * 13 + 1) * 32 + 1) * 24 + 16) * 60 + 0) := by omega
        rw [if_neg (by simpa using c)] at h
        simp at h
        simp [hc, h]

/-- The time block on a text that parses. -/
theorem checkTime_of_parse {s : String} {t : GoTime} (p : Int) (hne : s ≠ "")
    (hp : ParseClock s = .ok t) :
    checkTime s p = .ok (if 14 * 60 < t.hour * 60 + t.min ∧ t.hour * 60 + t.min < 16 * 60
        then wrapInt64 (p + 10) else p) := by
  cases hc : checkTime s p with
  | error a =>
    unfold checkTime at hc
    simp [hne, hp] at hc
    split at hc <;> simp at hc
  | ok p' =>
    obtain ⟨t', ht', -, hp'⟩ := checkTime_ok hc
    rw [hp] at ht'
    cases ht'
    rw [hp']

/-- Every text "14:01" to "14:59" and "15:00" to "15:59" parses to its hour and minute. -/
theorem parseClock_clockText :
    (∀ minute, minute < 60 → ParseClock (clockText 14 minute) = .ok ⟨0, 1, 1, 14, minute⟩) ∧
    (∀ minute, minute < 60 → ParseClock (clockText 15 minute) = .ok ⟨0, 1, 1, 15, minute⟩) ∧
    (∀ minute, minute < 60 → clockText 14 minute ≠ "") ∧
    (∀ minute, minute < 60 → clockText 15 minute ≠ "") := by
  decide

/-! ### C5: rule 3 -/

/-- C5: in an accepted receipt the purchase time parses to an hour and a minute (below 60),
and the time block takes the points `p2` left by the date block to `p2 + 10` (an `int64`
addition) exactly when the time of day is strictly after 14:00 and strictly before 16:00,
and leaves them at `p2` otherwise. The texts "14:00" and "16:00" add nothing, and every
text from "14:01" to "15:59" adds 10. -/
theorem rule3_afternoon (T : RangeTables) (r r' : Receipt)
    (h : validateReceiptPoints T r = .returned none r') :
    (∃ p2 p3 t, pointsAfterDate T r = .ok p2 ∧ pointsAfterTime T r = .ok p3 ∧
      ParseClock r.PurchaseTime = .ok t ∧ t.min < 60 ∧
      (p3 = wrapInt64 (p2 + 10) ↔
        (14 * 60 < t.hour * 60 + t.min ∧ t.hour * 60 + t.min < 16 * 60)) ∧
      (p3 = p2 ↔ ¬ (14 * 60 < t.hour * 60 + t.min ∧ t.hour * 60 + t.min < 16 * 60))) ∧
    (∀ p, checkTime "14:00" p = .ok p) ∧ (∀ p, checkTime "16:00" p = .ok p) ∧
    (∀ hour minute p, (hour = 14 ∧ 1 ≤ minute ∧ minute ≤ 59) ∨ (hour = 15 ∧ minute ≤ 59) →
      checkTime (clockText hour minute) p = .ok (wrapInt64 (p + 10))) := by
  obtain ⟨p1, p2, p3, p4, p5, -, h2, h3, -, -, -, ht, -⟩ := accepted_chain h
  obtain ⟨t, hpt, hmin, hp⟩ := checkTime_ok ht
  refine ⟨⟨p2, p3, t, h2, h3, hpt, hmin, ?_, ?_⟩, ?_, ?_, ?_⟩
  · by_cases hc : 14 * 60 < t.hour * 60 + t.min ∧ t.hour * 60 + t.min < 16 * 60
    · rw [if_pos hc] at hp
      simp [hc, hp]
    · rw [if_neg hc] at hp
      simp only [hc, iff_false, hp]
      unfold wrapInt64; omega
  · by_cases hc : 14 * 60 < t.hour * 60 + t.min ∧ t.hour * 60 + t.min < 16 * 60
    · rw [if_pos hc] at hp
      constructor
      · intro he
        rw [hp] at he
        unfold wrapInt64 at he
        omega
      · intro hn
        exact absurd hc hn
    · rw [if_neg hc] at hp
      simp [hc, hp]
  · intro p
    have hp14 : ParseClock "14:00" = .ok ⟨0, 1, 1, 14, 0⟩ := by decide
    have := checkTime_of_parse p (by decide) hp14
    simpa using this
  · intro p
    have hp16 : ParseClock "16:00" = .ok ⟨0, 1, 1, 16, 0⟩ := by decide
    have := checkTime_of_parse p (by decide) hp16
    simpa using this
  · intro hour minute p hhm
    obtain ⟨h14, h15, n14, n15⟩ := parseClock_clockText
    rcases hhm with ⟨rfl, hlo, hhi⟩ | ⟨rfl, hhi⟩
    · have := checkTime_of_parse p (n14 minute (by omega)) (h14 minute (by omega))
      rw [this, if_pos (by constructor <;> simp <;> omega)]
    · have := checkTime_of_parse p (n15 minute (by omega)) (h15 minute (by omega))
      rw [this, if_pos (by constructor <;> simp <;> omega)]

/-- C5 (witness): the sample receipt bought at 14:33 is accepted and earns the 10 points. -/
theorem rule3_afternoon_witness :
    validateReceiptPoints emptyTables marketReceipt =
        .returned none { marketReceipt with Points := 109 } ∧
    ((∃ p2 p3 t, pointsAfterDate emptyTables marketReceipt = .ok p2 ∧
      pointsAfterTime emptyTables marketReceipt = .ok p3 ∧
      ParseClock marketReceipt.PurchaseTime = .ok t ∧ t.min < 60 ∧
      (p3 = wrapInt64 (p2 + 10) ↔
        (14 * 60 < t.hour * 60 + t.min ∧ t.hour * 60 + t.min < 16 * 60)) ∧
      (p3 = p2 ↔ ¬ (14 * 60 < t.hour * 60 + t.min ∧ t.hour * 60 + t.min < 16 * 60))) ∧
    (∀ p, checkTime "14:00" p = .ok p) ∧ (∀ p, checkTime "16:00" p = .ok p) ∧
    (∀ hour minute p, (hour = 14 ∧ 1 ≤ minute ∧ minute ≤ 59) ∨ (hour = 15 ∧ minute ≤ 59) →
      checkTime (clockText hour minute) p = .ok (wrapInt64 (p + 10)))) :=
  ⟨marketReceipt_accepted emptyTables,
    rule3_afternoon emptyTables marketReceipt _ (marketReceipt_accepted emptyTables)⟩

/-! ### Decimal arithmetic -/

/-- The value of a decimal as an integer power of ten. -/
theorem Decimal.toRat_eq_zpow (d : Decimal) : d.toRat = (d.value : ℚ) * (10 : ℚ) ^ d.exp := by
  unfold Decimal.toRat
  split
  · next h =>
    conv_rhs => rw [← Int.toNat_of_nonneg h]
    rw [zpow_natCast]
  · next h =>
    have h' : d.exp = -((-d.exp).toNat : Int) := by
      rw [Int.toNat_of_nonneg (by omega)]; omega
    conv_rhs => rw [h']
    rw [zpow_neg, zpow_natCast, div_eq_mul_inv]

/-- A rational has no fractional part exactly when it is an integer. -/
theorem fract_eq_zero_iff_int (q : ℚ) : Int.fract q = 0 ↔ ∃ n : ℤ, q = n := by
  constructor
  · intro h
    refine ⟨⌊q⌋, ?_⟩
    have := Int.floor_add_fract q
    rw [h, add_zero] at this
    exact this.symm
  · rintro ⟨n, rfl⟩
    exact Int.fract_intCast n

/-- An integer divided by a positive integer is an integer exactly when it divides. -/
theorem div_is_int_iff (v D : Int) (hD : 0 < D) :
    (∃ n : ℤ, (v : ℚ) / (D : ℚ) = n) ↔ D ∣ v := by
  have hD' : (D : ℚ) ≠ 0 := by exact_mod_cast hD.ne'
  constructor
  · rintro ⟨n, hn⟩
    refine ⟨n, ?_⟩
    have : (v : ℚ) = (D : ℚ) * n := by
      field_simp at hn
      linarith
    exact_mod_cast this
  · rintro ⟨n, rfl⟩
    refine ⟨n, ?_⟩
    push_cast
    field_simp

/-- Ceiling of a quotient of integers, by Euclidean division. -/
theorem ceil_div_eq (v D : Int) (hD : 0 < D) :
    ⌈(v : ℚ) / (D : ℚ)⌉ = if v % D ≠ 0 then v / D + 1 else v / D := by
  have hDq : (0 : ℚ) < (D : ℚ) := by exact_mod_cast hD
  have hv : v = D * (v / D) + v % D := (Int.ediv_add_emod v D).symm
  have hm0 : 0 ≤ v % D := Int.emod_nonneg v hD.ne'
  have hm1 : v % D < D := Int.emod_lt_of_pos v hD
  have hvq : (v : ℚ) = (D : ℚ) * ((v / D : Int) : ℚ) + ((v % D : Int) : ℚ) := by
    exact_mod_cast hv
  rw [Int.ceil_eq_iff]
  split
  · next hne =>
    have hpos : (0 : ℚ) < ((v % D : Int) : ℚ) := by
      have : 0 < v % D := by omega
      exact_mod_cast this
    have hlt : ((v % D : Int) : ℚ) < (D : ℚ) := by exact_mod_cast hm1
    constructor
    · rw [lt_div_iff₀ hDq]
      push_cast
      nlinarith
    · rw [div_le_iff₀ hDq]
      push_cast
      nlinarith
  · next he =>
    have he' : v % D = 0 := by
      by_contra hc
      exact he hc
    have hz : ((v % D : Int) : ℚ) = 0 := by exact_mod_cast he'
    constructor
    · rw [lt_div_iff₀ hDq]
      nlinarith
    · rw [div_le_iff₀ hDq]
      nlinarith

/-- Ceil followed by the rescaling of IntPart is the mathematical ceiling. -/
theorem Decimal.ceil_rescale0 (d : Decimal) : d.Ceil.rescale0.value = ⌈d.toRat⌉ := by
  unfold Decimal.Ceil
  split
  · next h =>
    unfold Decimal.rescale0 Decimal.toRat
    rw [if_pos h]
    split
    · next h0 =>
      rw [h0]
      simp
    · next h0 =>
      have hpos : ¬ d.exp < 0 := by omega
      rw [if_neg hpos]
      simp only
      have : (d.value : ℚ) * 10 ^ d.exp.toNat = ((d.value * 10 ^ d.exp.toNat : Int) : ℚ) := by
        push_cast; rfl
      rw [this, Int.ceil_intCast]
  · next h =>
    have hD : (0 : Int) < 10 ^ (-d.exp).toNat := by positivity
    simp only [Decimal.rescale0, if_true]
    unfold Decimal.toRat
    rw [if_neg h]
    have := ceil_div_eq d.value (10 ^ (-d.exp).toNat) hD
    push_cast at this
    rw [this]

/-- IntPart of Ceil is the mathematical ceiling, brought into `int64`. -/
theorem Decimal.intPart_ceil (d : Decimal) : d.Ceil.IntPart = wrapInt64 ⌈d.toRat⌉ := by
  unfold Decimal.IntPart
  rw [Decimal.ceil_rescale0]

/-- Multiplying by the decimal 0.2 gives a fifth of the value. -/
theorem fifth_mul_toRat {d q : Decimal} (h : fifth.Mul d = some q) :
    q.toRat = (1 / 5 : ℚ) * d.toRat := by
  simp only [Decimal.Mul] at h
  split at h
  · simp at h
  · simp only [Option.some.injEq] at h
    subst h
    rw [Decimal.toRat_eq_zpow, Decimal.toRat_eq_zpow]
    simp only [fifth]
    rw [zpow_add₀ (by norm_num)]
    push_cast
    rw [zpow_neg, zpow_one]
    ring
/-- The exponent of a converted decimal is an `int32`. -/
theorem NewFromString_exp_range {s : String} {d : Decimal} (h : NewFromString s = .ok d) :
    -(2 ^ 31) ≤ d.exp ∧ d.exp ≤ 2 ^ 31 - 1 := by
  simp only [NewFromString] at h
  split at h
  · simp at h
  · split at h
    · simp at h
    · split at h
      · simp at h
      · split at h
        · simp at h
        · next hr =>
          simp only [Except.ok.injEq] at h
          subst h
          simp only
          omega

/-- Four times a decimal whose exponent is at least -2, as a quotient by 25. -/
theorem four_mul_toRat_of_le (d : Decimal) (h : 0 ≤ d.exp - quarter.exp) :
    4 * d.toRat =
      ((d.value * 10 ^ (d.exp - quarter.exp).toNat : Int) : ℚ) / ((25 : Int) : ℚ) := by
  rw [Decimal.toRat_eq_zpow]
  push_cast
  rw [← zpow_natCast, Int.toNat_of_nonneg h]
  simp only [quarter]
  rw [show d.exp - (-2) = d.exp + 2 by ring, zpow_add₀ (by norm_num)]
  norm_num
  ring

/-- Four times a decimal whose exponent is below -2, as a quotient of integers. -/
theorem four_mul_toRat_of_lt (d : Decimal) (h : d.exp - quarter.exp < 0) :
    4 * d.toRat =
      (d.value : ℚ) / ((25 * 10 ^ (-(d.exp - quarter.exp)).toNat : Int) : ℚ) := by
  rw [Decimal.toRat_eq_zpow]
  push_cast
  rw [← zpow_natCast, Int.toNat_of_nonneg (by omega)]
  simp only [quarter]
  rw [show -(d.exp - (-2)) = -d.exp + (-2) by ring, zpow_add₀ (by norm_num), zpow_neg (10 : ℚ) d.exp]
  have h10 : (10 : ℚ) ^ d.exp ≠ 0 := zpow_ne_zero _ (by norm_num)
  field_simp
  norm_num
  ring

/-- Within the exponents for which `QuoRem` does not panic, the remainder modulo 0.25 is
zero exactly for the multiples of 0.25. -/
theorem Decimal.mod_quarter (d : Decimal) (hlo : -(2 ^ 31) ≤ d.exp) (hhi : d.exp ≤ 2 ^ 31 - 3) :
    ∃ m, d.Mod quarter = some m ∧ (m.IsZero = true ↔ Int.fract (4 * d.toRat) = 0) := by
  have hq : ¬ quarter.value = 0 := by decide
  have hqe : quarter.exp = -2 := rfl
  have hrange : ¬ (2 ^ 31 - 1 < d.exp - quarter.exp ∨ d.exp - quarter.exp < -(2 ^ 31)) := by
    rw [hqe]
    omega
  rw [fract_eq_zero_iff_int]
  simp only [Decimal.Mod, hq, if_false, hrange]
  split
  · next h =>
    refine ⟨_, rfl, ?_⟩
    rw [four_mul_toRat_of_lt d h]
    have hD : (0 : Int) < 25 * 10 ^ (-(d.exp - quarter.exp)).toNat := by positivity
    rw [div_is_int_iff _ _ hD]
    simp only [Decimal.IsZero, beq_iff_eq, quarter]
    constructor
    · exact Int.dvd_of_tmod_eq_zero
    · exact Int.tmod_eq_zero_of_dvd
  · next h =>
    refine ⟨_, rfl, ?_⟩
    rw [four_mul_toRat_of_le d (by omega)]
    rw [div_is_int_iff _ _ (by norm_num)]
    simp only [Decimal.IsZero, beq_iff_eq, quarter]
    constructor
    · exact Int.dvd_of_tmod_eq_zero
    · exact Int.tmod_eq_zero_of_dvd

/-- Above the exponent 2^31 - 3 the difference to the exponent of 0.25 leaves `int32`
and `QuoRem` panics. -/
theorem Decimal.mod_quarter_panics (d : Decimal) (h : 2 ^ 31 - 3 < d.exp) :
    d.Mod quarter = none := by
  have hq : ¬ quarter.value = 0 := by decide
  have hqe : quarter.exp = -2 := rfl
  have hrange : 2 ^ 31 - 1 < d.exp - quarter.exp ∨ d.exp - quarter.exp < -(2 ^ 31) := by
    rw [hqe]
    omega
  simp only [Decimal.Mod, hq, if_false, hrange, if_true]

/-- A total that converts with an exponent at most 2^31 - 3 passes the total block, which
adds 0, 25, 50 or 75. -/
theorem checkTotal_of_convert {s : String} {d : Decimal} (p : Int)
    (hd : NewFromString s = .ok d) (hhi : d.exp ≤ 2 ^ 31 - 3) :
    ∃ a : Int, 0 ≤ a ∧ a ≤ 75 ∧ ∃ p', checkTotal s p = .ok p' ∧ (isInt64 p → p' = wrapInt64 (p + a)) := by
  obtain ⟨hlo, -⟩ := NewFromString_exp_range hd
  obtain ⟨m, hm, -⟩ := d.mod_quarter hlo hhi
  simp only [checkTotal, hd, hm]
  by_cases h1 : d.IsInteger = true
  · by_cases h2 : m.IsZero = true
    · refine ⟨75, by omega, by omega, wrapInt64 (wrapInt64 (p + 50) + 25), by simp [h1, h2], ?_⟩
      intro _
      rw [wrapInt64_add_left]
      ring_nf
    · refine ⟨50, by omega, by omega, wrapInt64 (p + 50), by simp [h1, h2], ?_⟩
      intro _
      rfl
  · by_cases h2 : m.IsZero = true
    · refine ⟨25, by omega, by omega, wrapInt64 (p + 25), by simp [h1, h2], ?_⟩
      intro _
      rfl
    · refine ⟨0, by omega, by omega, p, by simp [h1, h2], ?_⟩
      intro hp
      rw [add_zero, wrapInt64_of_isInt64 hp]

/-- A successful total block has converted the total, to a decimal on which `Mod` does
not panic. -/
theorem checkTotal_ok {s : String} {p p' : Int} (h : checkTotal s p = .ok p') :
    ∃ d, NewFromString s = .ok d ∧ d.exp ≤ 2 ^ 31 - 3 := by
  unfold checkTotal at h
  cases hd : NewFromString s with
  | error e => rw [hd] at h; simp at h
  | ok d =>
    refine ⟨d, rfl, ?_⟩
    by_contra hc
    have hp := d.mod_quarter_panics (by omega)
    rw [hd] at h
    simp only [hp] at h
    cases h

/-- The loop body on an item that is present, with rule 7 in exact terms. -/
theorem itemStep_some (i : Nat) (item : Item) (p : Int) :
    itemStep i (some item) p =
      if len (TrimSpaces item.ShortDescription) % 3 = 0 then
        match NewFromString item.Price with
        | .error err => .error (.returned err)
        | .ok price =>
          match fifth.Mul price with
          | none => .error .panicked
          | some _ =>
            .ok (wrapInt64 ((if i % 2 = 1 then wrapInt64 (p + 5) else p) +
              ⌈(1 / 5 : ℚ) * price.toRat⌉))
      else .ok (if i % 2 = 1 then wrapInt64 (p + 5) else p) := by
  simp only [itemStep]
  split
  · cases hd : NewFromString item.Price with
    | error e => rfl
    | ok price =>
      cases hm : fifth.Mul price with
      | none => simp only [hm]
      | some q =>
        simp only [hm]
        rw [Decimal.intPart_ceil, fifth_mul_toRat hm, wrapInt64_add_right]
  · rfl

/-- A loop that ran to its end ran the body on each of its items. -/
theorem itemsLoop_mem {items : List (Option Item)} {i : Nat} {p p' : Int}
    (h : itemsLoop i items p = .ok p') {x : Option Item} (hx : x ∈ items) :
    ∃ j q q', itemStep j x q = .ok q' := by
  induction items generalizing i p with
  | nil => simp at hx
  | cons y rest ih =>
    unfold itemsLoop at h
    cases hs : itemStep i y p with
    | error a => rw [hs] at h; simp at h
    | ok q =>
      rw [hs] at h
      rcases List.mem_cons.mp hx with rfl | hx'
      · exact ⟨i, p, q, hs⟩
      · exact ih h hx'

/-- In an accepted receipt every item is present, and a price that rule 7 reads
converts and multiplies without a panic. -/
theorem accepted_item {T : RangeTables} {r r' : Receipt}
    (h : validateReceiptPoints T r = .returned none r') {x : Option Item} (hx : x ∈ r.Items) :
    ∃ item, x = some item ∧
      (len (TrimSpaces item.ShortDescription) % 3 = 0 →
        ∃ price q, NewFromString item.Price = .ok price ∧ fifth.Mul price = some q) := by
  obtain ⟨p1, p2, p3, p4, p5, -, -, -, -, -, -, -, -, hi, -⟩ := accepted_chain h
  unfold checkItems at hi
  split at hi
  · simp at hi
  · obtain ⟨j, q, q', hs⟩ := itemsLoop_mem hi hx
    cases x with
    | none => simp [itemStep] at hs
    | some item =>
      refine ⟨item, rfl, ?_⟩
      intro h3
      rw [itemStep_some, if_pos h3] at hs
      cases hd : NewFromString item.Price with
      | error e => rw [hd] at hs; simp at hs
      | ok price =>
        simp only [hd] at hs
        cases hm : fifth.Mul price with
        | none => simp [hm] at hs
        | some q => exact ⟨price, q, rfl, hm⟩

/-! ### C2: rule 7 -/

/-- The exact decimal of the price "46116860184273879040": a fifth of it is 2^63. -/
theorem huge_price : NewFromString "46116860184273879040" = .ok ⟨46116860184273879040, 0⟩ ∧
    (0 : ℚ) ≤ (⟨46116860184273879040, 0⟩ : Decimal).toRat ∧
    ⌈(1 / 5 : ℚ) * (⟨46116860184273879040, 0⟩ : Decimal).toRat⌉ = 2 ^ 63 := by
  have hr : (⟨46116860184273879040, 0⟩ : Decimal).toRat = 46116860184273879040 := by
    simp only [Decimal.toRat]
    rw [if_pos (by decide), show (0 : Int).toNat = 0 by decide]
    norm_num
  refine ⟨by decide, ?_, ?_⟩
  · rw [hr]
    norm_num
  · rw [hr, Int.ceil_eq_iff]
    norm_num

/-- C2 (as amended): for an item of an accepted receipt whose trimmed description has a
byte length (`len` of the UTF-8 text) that is a positive multiple of 3, the price converts
to an exact decimal and the loop body adds the ceiling of a fifth of that exact value to
the running points (after the pair bonus of rule 6) by an `int64` addition, at whatever
index and whatever the points were: the result is exactly the sum whenever the sum is an
`int64`. For an item whose trimmed byte length is not a multiple of 3 the body adds
nothing beyond the pair bonus. "Emils Cheese Pizza" has trimmed length 18 and at "12.25"
adds 3. -/
theorem rule7_item (T : RangeTables) (r r' : Receipt)
    (h : validateReceiptPoints T r = .returned none r') (item : Item)
    (hmem : some item ∈ r.Items) :
    (len (TrimSpaces item.ShortDescription) % 3 = 0 →
      0 < len (TrimSpaces item.ShortDescription) →
      ∃ price, NewFromString item.Price = .ok price ∧
        ∀ i p, itemStep i (some item) p =
            .ok (wrapInt64 ((if i % 2 = 1 then wrapInt64 (p + 5) else p) +
              ⌈(1 / 5 : ℚ) * price.toRat⌉)) ∧
          (isInt64 ((if i % 2 = 1 then wrapInt64 (p + 5) else p) + ⌈(1 / 5 : ℚ) * price.toRat⌉) →
            itemStep i (some item) p =
              .ok ((if i % 2 = 1 then wrapInt64 (p + 5) else p) + ⌈(1 / 5 : ℚ) * price.toRat⌉))) ∧
    (len (TrimSpaces item.ShortDescription) % 3 ≠ 0 →
      ∀ i p, itemStep i (some item) p = .ok (if i % 2 = 1 then wrapInt64 (p + 5) else p)) ∧
    (len (TrimSpaces "Emils Cheese Pizza") = 18 ∧
      ∃ price, NewFromString "12.25" = .ok price ∧ price.toRat = 49 / 4 ∧
        ⌈(1 / 5 : ℚ) * price.toRat⌉ = 3 ∧
        ∀ i p, itemStep i (some ⟨"Emils Cheese Pizza", "12.25"⟩) p =
            .ok (wrapInt64 ((if i % 2 = 1 then wrapInt64 (p + 5) else p) + 3)) ∧
          (isInt64 ((if i % 2 = 1 then wrapInt64 (p + 5) else p) + 3) →
            itemStep i (some ⟨"Emils Cheese Pizza", "12.25"⟩) p =
              .ok ((if i % 2 = 1 then wrapInt64 (p + 5) else p) + 3))) := by
  refine ⟨?_, ?_, ?_⟩
  · intro h3 _
    obtain ⟨item', he, hq⟩ := accepted_item h hmem
    cases he
    obtain ⟨price, q, hd, hm⟩ := hq h3
    refine ⟨price, hd, ?_⟩
    intro i p
    have hs : itemStep i (some item) p =
        .ok (wrapInt64 ((if i % 2 = 1 then wrapInt64 (p + 5) else p) +
          ⌈(1 / 5 : ℚ) * price.toRat⌉)) := by
      rw [itemStep_some, if_pos h3, hd]
      simp only [hm]
    refine ⟨hs, ?_⟩
    intro hfit
    rw [hs, wrapInt64_of_isInt64 hfit]
  · intro h3 i p
    rw [itemStep_some, if_neg h3]
  · have hlen : len (TrimSpaces "Emils Cheese Pizza") = 18 := by decide
    have hd : NewFromString "12.25" = .ok ⟨1225, -2⟩ := by decide
    have hm : fifth.Mul ⟨1225, -2⟩ = some ⟨2450, -3⟩ := by decide
    have hr : (⟨1225, -2⟩ : Decimal).toRat = 49 / 4 := by
      simp only [Decimal.toRat]
      rw [if_neg (by decide), show (-(-2 : Int)).toNat = 2 by decide]
      norm_num
    have hc : ⌈(1 / 5 : ℚ) * (⟨1225, -2⟩ : Decimal).toRat⌉ = 3 := by
      rw [hr, Int.ceil_eq_iff]
      norm_num
    refine ⟨hlen, ⟨1225, -2⟩, hd, hr, hc, ?_⟩
    intro i p
    have hs : itemStep i (some ⟨"Emils Cheese Pizza", "12.25"⟩) p =
        .ok (wrapInt64 ((if i % 2 = 1 then wrapInt64 (p + 5) else p) + 3)) := by
      rw [itemStep_some]
      have h3 : len (TrimSpaces (⟨"Emils Cheese Pizza", "12.25"⟩ : Item).ShortDescription) % 3 = 0 := by
        decide
      rw [if_pos h3]
      simp only [hd, hm, hc]
    refine ⟨hs, ?_⟩
    intro hfit
    rw [hs, wrapInt64_of_isInt64 hfit]

/-- C2 (counterexample): the length that rule 7 tests is a number of bytes and the
addition is an `int64` addition. The description "日" is one character (three bytes): the
item is scored, and the receipt is accepted with 15 points. The description "abé" is
three characters (four bytes): the item is not scored, and the receipt is accepted with
12 points. With the description "abc" and the price "46116860184273879040", of which a
fifth is 2^63, the loop body takes the points from 12 to 12 - 2^63, which is not
12 + 2^63, and the receipt is accepted with that. -/
theorem rule7_bytes_and_wrap :
    (("日" : String).length = 1 ∧ len (TrimSpaces "日") = 3 ∧
      itemStep 0 (some ⟨"日", "12.25"⟩) 12 = .ok 15 ∧
      validateReceiptPoints emptyTables oneCharReceipt =
        .returned none { oneCharReceipt with Points := 15 }) ∧
    (("abé" : String).length = 3 ∧ len (TrimSpaces "abé") = 4 ∧
      itemStep 0 (some ⟨"abé", "12.25"⟩) 12 = .ok 12 ∧
      validateReceiptPoints emptyTables threeCharReceipt =
        .returned none { threeCharReceipt with Points := 12 }) ∧
    (len (TrimSpaces "abc") = 3 ∧
      NewFromString "46116860184273879040" = .ok ⟨46116860184273879040, 0⟩ ∧
      ⌈(1 / 5 : ℚ) * (⟨46116860184273879040, 0⟩ : Decimal).toRat⌉ = 2 ^ 63 ∧
      itemStep 0 (some ⟨"abc", "46116860184273879040"⟩) 12 = .ok (12 - 2 ^ 63) ∧
      (12 - 2 ^ 63 : Int) ≠ 12 + 2 ^ 63 ∧
      validateReceiptPoints emptyTables hugePriceReceipt =
        .returned none { hugePriceReceipt with Points := 12 - 2 ^ 63 }) := by
  refine ⟨by decide, by decide, by decide, huge_price.1, huge_price.2.2, by decide, by decide,
    by decide⟩

/-- The third sample receipt is accepted with 15 points. -/
theorem pizzaReceipt_accepted (T : RangeTables) :
    validateReceiptPoints T pizzaReceipt = .returned none { pizzaReceipt with Points := 15 } := by
  have h1 : checkRetailer T "Target" 0 = .ok 6 := rfl
  have h2 : checkDate "2022-01-01" 6 = .ok 12 := by decide
  have h3 : checkTime "13:01" 12 = .ok 12 := by decide
  have h4 : checkTotal "35.35" 12 = .ok 12 := by decide
  have h5 : checkItems pizzaReceipt.Items 12 = .ok 15 := by decide
  exact accepted_of_blocks h1 h2 h3 h4 h5

/-- C2 (witness): the accepted sample receipt with the item "Emils Cheese Pizza". -/
theorem rule7_item_witness :
    validateReceiptPoints emptyTables pizzaReceipt =
        .returned none { pizzaReceipt with Points := 15 } ∧
    some (⟨"Emils Cheese Pizza", "12.25"⟩ : Item) ∈ pizzaReceipt.Items ∧
    ((len (TrimSpaces "Emils Cheese Pizza") % 3 = 0 →
      0 < len (TrimSpaces "Emils Cheese Pizza") →
      ∃ price, NewFromString "12.25" = .ok price ∧
        ∀ i p, itemStep i (some ⟨"Emils Cheese Pizza", "12.25"⟩) p =
            .ok (wrapInt64 ((if i % 2 = 1 then wrapInt64 (p + 5) else p) +
              ⌈(1 / 5 : ℚ) * price.toRat⌉)) ∧
          (isInt64 ((if i % 2 = 1 then wrapInt64 (p + 5) else p) + ⌈(1 / 5 : ℚ) * price.toRat⌉) →
            itemStep i (some ⟨"Emils Cheese Pizza", "12.25"⟩) p =
              .ok ((if i % 2 = 1 then wrapInt64 (p + 5) else p) + ⌈(1 / 5 : ℚ) * price.toRat⌉))) ∧
    (len (TrimSpaces "Emils Cheese Pizza") % 3 ≠ 0 →
      ∀ i p, itemStep i (some ⟨"Emils Cheese Pizza", "12.25"⟩) p =
        .ok (if i % 2 = 1 then wrapInt64 (p + 5) else p)) ∧
    (len (TrimSpaces "Emils Cheese Pizza") = 18 ∧
      ∃ price, NewFromString "12.25" = .ok price ∧ price.toRat = 49 / 4 ∧
        ⌈(1 / 5 : ℚ) * price.toRat⌉ = 3 ∧
        ∀ i p, itemStep i (some ⟨"Emils Cheese Pizza", "12.25"⟩) p =
            .ok (wrapInt64 ((if i % 2 = 1 then wrapInt64 (p + 5) else p) + 3)) ∧
          (isInt64 ((if i % 2 = 1 then wrapInt64 (p + 5) else p) + 3) →
            itemStep i (some ⟨"Emils Cheese Pizza", "12.25"⟩) p =
              .ok ((if i % 2 = 1 then wrapInt64 (p + 5) else p) + 3)))) :=
  ⟨pizzaReceipt_accepted emptyTables, by decide,
    rule7_item emptyTables pizzaReceipt _ (pizzaReceipt_accepted emptyTables)
      ⟨"Emils Cheese Pizza", "12.25"⟩ (by decide)⟩

/-! ### The blocks as additions of the rule amounts -/

/-- Rule 1: the retailer loop adds one per letter or number. -/
theorem retailerLoop_eq (T : RangeTables) (cs : List Char) (p : Int) (hp : isInt64 p) :
    retailerLoop T cs p =
      wrapInt64 (p + (cs.countP (fun c => IsLetter T c.toNat || IsNumber T c.toNat) : Nat)) := by
  induction cs generalizing p with
  | nil => simp [retailerLoop, wrapInt64_of_isInt64 hp]
  | cons c cs ih =>
    unfold retailerLoop
    by_cases hc : (IsLetter T c.toNat || IsNumber T c.toNat) = true
    · rw [if_pos hc, ih _ (wrapInt64_isInt64 _), wrapInt64_add_left]
      simp only [List.countP_cons, hc, if_true]
      push_cast
      ring_nf
    · rw [if_neg hc, ih _ hp]
      simp only [List.countP_cons, hc]
      simp

/-- The retailer block from zero points. -/
theorem checkRetailer_ok {T : RangeTables} {s : String} {p1 : Int}
    (h : checkRetailer T s 0 = .ok p1) : s ≠ "" ∧ p1 = wrapInt64 (rule1Amount T s) := by
  unfold checkRetailer at h
  split at h
  · simp at h
  · next hne =>
    simp only [Except.ok.injEq] at h
    refine ⟨hne, ?_⟩
    rw [← h, retailerLoop_eq T _ 0 (by unfold isInt64; omega)]
    simp [rule1Amount]

/-- The date block adds the amount of rule 2. -/
theorem checkDate_amount {s : String} {p p' : Int} (hp : isInt64 p)
    (h : checkDate s p = .ok p') : p' = wrapInt64 (p + rule2Amount s) := by
  obtain ⟨t, ht, he⟩ := checkDate_ok h
  simp only [rule2Amount, ht]
  rw [he]
  simp only [GoTime.Day]
  split
  · rfl
  · simp [wrapInt64_of_isInt64 hp]

/-- The time block adds the amount of rule 3. -/
theorem checkTime_amount {s : String} {p p' : Int} (hp : isInt64 p)
    (h : checkTime s p = .ok p') : p' = wrapInt64 (p + rule3Amount s) := by
  obtain ⟨t, ht, -, he⟩ := checkTime_ok h
  simp only [rule3Amount, ht]
  rw [he]
  split
  · rfl
  · simp [wrapInt64_of_isInt64 hp]

/-- The total block adds the amount of rules 4 and 5. -/
theorem checkTotal_amount {s : String} {p p' : Int} (hp : isInt64 p)
    (h : checkTotal s p = .ok p') : p' = wrapInt64 (p + rule45Amount s) := by
  obtain ⟨d, hd, hhi⟩ := checkTotal_ok h
  obtain ⟨hlo, -⟩ := NewFromString_exp_range hd
  obtain ⟨m, hm, -⟩ := d.mod_quarter hlo hhi
  simp only [checkTotal, hd, hm] at h
  simp only [rule45Amount, hd, hm]
  cases h1 : d.IsInteger <;> cases h2 : m.IsZero <;>
    simp only [h1, h2, if_true, if_false, Bool.false_eq_true, Except.ok.injEq, add_zero,
      zero_add] at h ⊢ <;> subst h
  · exact (wrapInt64_of_isInt64 hp).symm
  · rfl
  · rfl
  · rw [wrapInt64_add_left]
    ring_nf

/-- The loop body adds the pair bonus and the amount of rule 7. -/
theorem itemStep_amount {i : Nat} {x : Option Item} {p p' : Int} (hp : isInt64 p)
    (h : itemStep i x p = .ok p') :
    p' = wrapInt64 (p + (if i % 2 = 1 then 5 else 0) + rule7Amount x) := by
  cases x with
  | none => simp [itemStep] at h
  | some item =>
    rw [itemStep_some] at h
    have hpair : (if i % 2 = 1 then wrapInt64 (p + 5) else p) =
        wrapInt64 (p + (if i % 2 = 1 then 5 else 0)) := by
      split
      · rfl
      · simp [wrapInt64_of_isInt64 hp]
    simp only [rule7Amount]
    split at h
    · next h3 =>
      rw [if_pos h3]
      cases hd : NewFromString item.Price with
      | error e => rw [hd] at h; simp at h
      | ok price =>
        simp only [hd] at h
        cases hm : fifth.Mul price with
        | none => simp [hm] at h
        | some q =>
          simp only [hm, Except.ok.injEq] at h
          rw [← h, hpair, wrapInt64_add_left]
    · next h3 =>
      rw [if_neg h3]
      simp only [Except.ok.injEq] at h
      rw [← h, hpair, add_zero]

/-- The loop from index `i` adds 5 per odd index and the amounts of rule 7. -/
theorem itemsLoop_amount {items : List (Option Item)} {i : Nat} {p p' : Int} (hp : isInt64 p)
    (h : itemsLoop i items p = .ok p') :
    p' = wrapInt64 (p + 5 * ((((i + items.length) / 2 : Nat) : Int) - ((i / 2 : Nat) : Int)) +
      rule7Sum items) := by
  induction items generalizing i p with
  | nil =>
    simp only [itemsLoop, Except.ok.injEq] at h
    simp [rule7Sum, ← h, wrapInt64_of_isInt64 hp]
  | cons x rest ih =>
    unfold itemsLoop at h
    cases hs : itemStep i x p with
    | error a => rw [hs] at h; simp at h
    | ok q =>
      rw [hs] at h
      simp only at h
      have hq := itemStep_amount hp hs
      have hr := ih (p := q) (by rw [hq]; exact wrapInt64_isInt64 _) h
      rw [hr, hq, add_assoc (wrapInt64 _), wrapInt64_add_left]
      simp only [rule7Sum, List.map_cons, List.sum_cons, List.length_cons]
      generalize rule7Amount x = a
      generalize (List.map rule7Amount rest).sum = b
      congr 1
      split <;> omega

/-- The items block adds the amounts of rules 6 and 7. -/
theorem checkItems_amount {items : List (Option Item)} {p p' : Int} (hp : isInt64 p)
    (h : checkItems items p = .ok p') :
    1 ≤ items.length ∧ p' = wrapInt64 (p + rule6Amount items + rule7Sum items) := by
  unfold checkItems at h
  split at h
  · simp at h
  · next hl =>
    refine ⟨by omega, ?_⟩
    have := itemsLoop_amount hp h
    simpa [rule6Amount] using this

/-- Points of an accepted receipt: each block adds its rule amounts, in `int64`. -/
theorem accepted_amounts {T : RangeTables} {r r' : Receipt}
    (h : validateReceiptPoints T r = .returned none r') :
    ∃ p1 p2 p3 p4,
      pointsAfterRetailer T r = .ok p1 ∧ pointsAfterDate T r = .ok p2 ∧
      pointsAfterTime T r = .ok p3 ∧ pointsAfterTotal T r = .ok p4 ∧
      pointsAfterItems T r = .ok r'.Points ∧
      isInt64 p1 ∧ isInt64 p2 ∧ isInt64 p3 ∧ isInt64 p4 ∧ isInt64 r'.Points ∧
      p1 = wrapInt64 (rule1Amount T r.Retailer) ∧
      p2 = wrapInt64 (p1 + rule2Amount r.PurchaseDate) ∧
      p3 = wrapInt64 (p2 + rule3Amount r.PurchaseTime) ∧
      p4 = wrapInt64 (p3 + rule45Amount r.Total) ∧
      r'.Points = wrapInt64 (p4 + rule6Amount r.Items + rule7Sum r.Items) := by
  obtain ⟨p1, p2, p3, p4, p5, h1, h2, h3, h4, h5, hd, ht, hto, hi, hr⟩ := accepted_chain h
  obtain ⟨-, e1⟩ := checkRetailer_ok h1
  have i1 : isInt64 p1 := e1 ▸ wrapInt64_isInt64 _
  have e2 := checkDate_amount i1 hd
  have i2 : isInt64 p2 := e2 ▸ wrapInt64_isInt64 _
  have e3 := checkTime_amount i2 ht
  have i3 : isInt64 p3 := e3 ▸ wrapInt64_isInt64 _
  have e4 := checkTotal_amount i3 hto
  have i4 : isInt64 p4 := e4 ▸ wrapInt64_isInt64 _
  obtain ⟨-, e5⟩ := checkItems_amount i4 hi
  have i5 : isInt64 p5 := e5 ▸ wrapInt64_isInt64 _
  have hp : r'.Points = p5 := by rw [hr]
  refine ⟨p1, p2, p3, p4, h1, h2, h3, h4, ?_, i1, i2, i3, i4, ?_, e1, e2, e3, e4, ?_⟩
  · rw [hp]; exact h5
  · rw [hp]; exact i5
  · rw [hp]; exact e5

/-- Points of an accepted receipt are the exact sum of the seven rules, wrapped to `int64`. -/
theorem accepted_points_eq {T : RangeTables} {r r' : Receipt}
    (h : validateReceiptPoints T r = .returned none r') :
    r'.Points = wrapInt64 (exactPoints T r) := by
  obtain ⟨p1, p2, p3, p4, -, -, -, -, -, -, -, -, -, -, e1, e2, e3, e4, e5⟩ := accepted_amounts h
  rw [e5, e4, e3, e2, e1]
  simp only [add_assoc, wrapInt64_add_left, exactPoints]

/-! ### C7: rule 1 -/

/-- C7 (as amended): in an accepted receipt the retailer block leaves in `points` the
number of characters of the retailer name that are letters (`unicode.IsLetter`) or
numbers (`unicode.IsNumber`, the whole category N and not only the decimal digits), as an
`int64`; it is that number itself for a name of fewer than 2^63 characters. "Target"
gives 6 and "M&M Corner Market" gives 14. -/
theorem rule1_retailer (T : RangeTables) (r r' : Receipt)
    (h : validateReceiptPoints T r = .returned none r') :
    (∃ p1, pointsAfterRetailer T r = .ok p1 ∧
      p1 = wrapInt64
        (r.Retailer.data.countP (fun c => IsLetter T c.toNat || IsNumber T c.toNat) : Nat) ∧
      (r.Retailer.length < 2 ^ 63 →
        p1 = (r.Retailer.data.countP (fun c => IsLetter T c.toNat || IsNumber T c.toNat) : Nat))) ∧
    checkRetailer T "Target" 0 = .ok 6 ∧ checkRetailer T "M&M Corner Market" 0 = .ok 14 := by
  obtain ⟨p1, p2, p3, p4, p5, h1, -⟩ := accepted_chain h
  obtain ⟨-, e1⟩ := checkRetailer_ok h1
  refine ⟨⟨p1, h1, e1, ?_⟩, rfl, rfl⟩
  intro hlen
  rw [e1]
  apply wrapInt64_of_isInt64
  have hle := List.countP_le_length (fun c => IsLetter T c.toNat || IsNumber T c.toNat)
    (l := r.Retailer.data)
  have hl : r.Retailer.length = r.Retailer.data.length := rfl
  unfold isInt64 rule1Amount
  constructor
  · have : (0 : Int) ≤ (List.countP (fun c => IsLetter T c.toNat || IsNumber T c.toNat)
        r.Retailer.data : Nat) := Int.natCast_nonneg _
    omega
  · have : ((List.countP (fun c => IsLetter T c.toNat || IsNumber T c.toNat)
        r.Retailer.data : Nat) : Int) < 2 ^ 63 := by
      have h2 : List.countP (fun c => IsLetter T c.toNat || IsNumber T c.toNat)
          r.Retailer.data < 2 ^ 63 := by omega
      exact_mod_cast h2
    exact this

/-- C7 (witness): the sample receipt of "M&M Corner Market". -/
theorem rule1_retailer_witness :
    validateReceiptPoints emptyTables marketReceipt =
        .returned none { marketReceipt with Points := 109 } ∧
    ((∃ p1, pointsAfterRetailer emptyTables marketReceipt = .ok p1 ∧
      p1 = wrapInt64 (marketReceipt.Retailer.data.countP
        (fun c => IsLetter emptyTables c.toNat || IsNumber emptyTables c.toNat) : Nat) ∧
      (marketReceipt.Retailer.length < 2 ^ 63 →
        p1 = (marketReceipt.Retailer.data.countP
          (fun c => IsLetter emptyTables c.toNat || IsNumber emptyTables c.toNat) : Nat))) ∧
    checkRetailer emptyTables "Target" 0 = .ok 6 ∧
    checkRetailer emptyTables "M&M Corner Market" 0 = .ok 14) :=
  ⟨marketReceipt_accepted emptyTables,
    rule1_retailer emptyTables marketReceipt _ (marketReceipt_accepted emptyTables)⟩

/-- C7 (counterexample): the retailer "½" (U+00BD) has no letter and no digit, yet the
receipt is accepted with one point, which comes from the retailer block: U+00BD is a
number for `unicode.IsNumber`. -/
theorem half_retailer_counted :
    validateReceiptPoints emptyTables halfReceipt =
        .returned none { halfReceipt with Points := 1 } ∧
    pointsAfterRetailer emptyTables halfReceipt = .ok 1 ∧
    halfReceipt.Retailer.data.countP
      (fun c => IsLetter emptyTables c.toNat || IsDigit emptyTables c.toNat) = 0 ∧
    halfReceipt.Retailer.data.map Char.toNat = [0xBD] ∧
    (∀ T : RangeTables, IsNumber T 0xBD = true ∧ IsDigit T 0xBD = false ∧
      IsLetter T 0xBD = false) := by
  refine ⟨by decide, by decide, by decide, by decide, ?_⟩
  intro T
  exact ⟨rfl, rfl, rfl⟩

/-! ### C6: rule 6 -/

/-- C6: in an accepted receipt with `n` items, the points set are the points `p4` left by
the total block, plus the pair bonus `5 * (n / 2)`, plus the sum of the rule 7 amounts of
the items (`int64` addition). The pair bonus depends on the number of items only, and is
10 for five items. -/
theorem rule6_pairs (T : RangeTables) (r r' : Receipt)
    (h : validateReceiptPoints T r = .returned none r') :
    ∃ p4, pointsAfterTotal T r = .ok p4 ∧
      r'.Points = wrapInt64 (p4 + 5 * ((r.Items.length / 2 : Nat) : Int) + rule7Sum r.Items) ∧
      (r.Items.length = 5 → 5 * ((r.Items.length / 2 : Nat) : Int) = 10) := by
  obtain ⟨p1, p2, p3, p4, -, -, -, h4, -, -, -, -, -, -, -, -, -, -, e5⟩ := accepted_amounts h
  refine ⟨p4, h4, ?_, ?_⟩
  · rw [e5]
    rfl
  · intro h5
    rw [h5]
    rfl

/-- C6 (witness): the sample receipt with four items is accepted. -/
theorem rule6_pairs_witness :
    validateReceiptPoints emptyTables marketReceipt =
        .returned none { marketReceipt with Points := 109 } ∧
    ∃ p4, pointsAfterTotal emptyTables marketReceipt = .ok p4 ∧
      ({ marketReceipt with Points := 109 } : Receipt).Points =
        wrapInt64 (p4 + 5 * ((marketReceipt.Items.length / 2 : Nat) : Int) +
          rule7Sum marketReceipt.Items) ∧
      (marketReceipt.Items.length = 5 →
        5 * ((marketReceipt.Items.length / 2 : Nat) : Int) = 10) :=
  ⟨marketReceipt_accepted emptyTables,
    rule6_pairs emptyTables marketReceipt _ (marketReceipt_accepted emptyTables)⟩

/-! ### C3: sign of the points -/

/-- Each rule amount other than rule 7 is non-negative. -/
theorem rule_amounts_nonneg (T : RangeTables) (r : Receipt) :
    0 ≤ rule1Amount T r.Retailer ∧ 0 ≤ rule2Amount r.PurchaseDate ∧
    0 ≤ rule3Amount r.PurchaseTime ∧ 0 ≤ rule45Amount r.Total ∧ 0 ≤ rule6Amount r.Items := by
  refine ⟨?_, ?_, ?_, ?_, ?_⟩
  · exact Int.natCast_nonneg _
  · unfold rule2Amount
    split
    · split <;> omega
    · omega
  · unfold rule3Amount
    split
    · split <;> omega
    · omega
  · unfold rule45Amount
    split
    · split <;> split <;> first | omega | (split <;> omega)
    · omega
  · unfold rule6Amount
    omega

/-- The rule 7 amount of an item of an accepted receipt is non-negative when the prices
that rule 7 reads are. -/
theorem rule7Sum_nonneg {items : List (Option Item)}
    (hprice : ∀ item, some item ∈ items → len (TrimSpaces item.ShortDescription) % 3 = 0 →
      ∀ price, NewFromString item.Price = .ok price → 0 ≤ price.toRat) :
    0 ≤ rule7Sum items := by
  unfold rule7Sum
  apply List.sum_nonneg
  intro a ha
  obtain ⟨x, hx, rfl⟩ := List.mem_map.mp ha
  cases x with
  | none => simp [rule7Amount]
  | some item =>
    simp only [rule7Amount]
    split
    · next h3 =>
      cases hd : NewFromString item.Price with
      | error e => simp
      | ok price =>
        simp only
        apply Int.ceil_nonneg
        have := hprice item hx h3 price hd
        positivity
    · omega

/-- C3 (as amended): when every price read by rule 7 (an item whose trimmed description
has a byte length that is a multiple of 3) is non-negative and the sum of the amounts the
seven rules add, taken over the unbounded integers, is below 2^63, the points of an
accepted receipt are that sum, an `int64` that is not negative. -/
theorem points_nonneg (T : RangeTables) (r r' : Receipt)
    (h : validateReceiptPoints T r = .returned none r')
    (hprice : ∀ item, some item ∈ r.Items → len (TrimSpaces item.ShortDescription) % 3 = 0 →
      ∀ price, NewFromString item.Price = .ok price → 0 ≤ price.toRat)
    (hfit : exactPoints T r < 2 ^ 63) :
    isInt64 r'.Points ∧ r'.Points = exactPoints T r ∧ 0 ≤ r'.Points := by
  have he := accepted_points_eq h
  obtain ⟨n1, n2, n3, n45, n6⟩ := rule_amounts_nonneg T r
  have n7 := rule7Sum_nonneg hprice
  have hnn : 0 ≤ exactPoints T r := by
    unfold exactPoints
    omega
  have hin : isInt64 (exactPoints T r) := by
    unfold isInt64
    constructor <;> omega
  rw [wrapInt64_of_isInt64 hin] at he
  exact ⟨he ▸ hin, he, he ▸ hnn⟩

/-- C3 (counterexample): a receipt with one item "abc" priced "-100.00" is accepted and
its `Points` is set to -14; a receipt with one item "abc" priced "46116860184273879040",
which is not negative, is accepted and its `Points` is set to 12 - 2^63, the sum 12 + 2^63
of the rule amounts having left `int64`. -/
theorem negative_points_accepted :
    (validateReceiptPoints emptyTables refundReceipt =
        .returned none { refundReceipt with Points := -14 } ∧
      ¬ (0 ≤ ({ refundReceipt with Points := -14 } : Receipt).Points)) ∧
    (NewFromString "46116860184273879040" = .ok ⟨46116860184273879040, 0⟩ ∧
      (0 : ℚ) ≤ (⟨46116860184273879040, 0⟩ : Decimal).toRat ∧
      exactPoints emptyTables hugePriceReceipt = 12 + 2 ^ 63 ∧
      validateReceiptPoints emptyTables hugePriceReceipt =
        .returned none { hugePriceReceipt with Points := 12 - 2 ^ 63 } ∧
      ¬ (0 ≤ ({ hugePriceReceipt with Points := 12 - 2 ^ 63 } : Receipt).Points)) := by
  have e : exactPoints emptyTables hugePriceReceipt = 12 + 2 ^ 63 := by
    have e1 : rule1Amount emptyTables hugePriceReceipt.Retailer = 6 := by decide
    have e2 : rule2Amount hugePriceReceipt.PurchaseDate = 6 := by decide
    have e3 : rule3Amount hugePriceReceipt.PurchaseTime = 0 := by decide
    have e45 : rule45Amount hugePriceReceipt.Total = 0 := by decide
    have e6 : rule6Amount hugePriceReceipt.Items = 0 := by decide
    have e7 : rule7Sum hugePriceReceipt.Items = 2 ^ 63 := by
      obtain ⟨hd, -, hc⟩ := huge_price
      have h3 : len (TrimSpaces "abc") % 3 = 0 := by decide
      simp only [rule7Sum, hugePriceReceipt, List.map, rule7Amount, h3, if_true, hd, hc]
      rfl
    unfold exactPoints
    rw [e1, e2, e3, e45, e6, e7]
    rfl
  exact ⟨by decide, huge_price.1, huge_price.2.1, e, by decide, by decide⟩

/-- The exact decimal of the price "12.25" and its rule 7 amount. -/
theorem pizza_price : NewFromString "12.25" = .ok ⟨1225, -2⟩ ∧
    (⟨1225, -2⟩ : Decimal).toRat = 49 / 4 ∧ ⌈(1 / 5 : ℚ) * (⟨1225, -2⟩ : Decimal).toRat⌉ = 3 := by
  have hr : (⟨1225, -2⟩ : Decimal).toRat = 49 / 4 := by
    simp only [Decimal.toRat]
    rw [if_neg (by decide), show (-(-2 : Int)).toNat = 2 by decide]
    norm_num
  refine ⟨by decide, hr, ?_⟩
  rw [hr, Int.ceil_eq_iff]
  norm_num

/-- The exact sum of the seven rules on the third sample receipt. -/
theorem pizzaReceipt_exactPoints (T : RangeTables) : exactPoints T pizzaReceipt = 15 := by
  have e1 : rule1Amount T pizzaReceipt.Retailer = 6 := rfl
  have e2 : rule2Amount pizzaReceipt.PurchaseDate = 6 := by decide
  have e3 : rule3Amount pizzaReceipt.PurchaseTime = 0 := by decide
  have e6 : rule6Amount pizzaReceipt.Items = 0 := by decide
  have e45 : rule45Amount pizzaReceipt.Total = 0 := by decide
  have e7 : rule7Sum pizzaReceipt.Items = 3 := by
    obtain ⟨hd, -, hc⟩ := pizza_price
    have h3 : len (TrimSpaces "Emils Cheese Pizza") % 3 = 0 := by decide
    simp only [rule7Sum, pizzaReceipt, List.map, rule7Amount, h3, if_true, hd, hc]
    rfl
  unfold exactPoints
  rw [e1, e2, e3, e45, e6, e7]
  rfl

/-- C3 (witness): the third sample receipt, whose only price is 12.25. -/
theorem points_nonneg_witness :
    validateReceiptPoints emptyTables pizzaReceipt =
        .returned none { pizzaReceipt with Points := 15 } ∧
    exactPoints emptyTables pizzaReceipt < 2 ^ 63 ∧
    (isInt64 ({ pizzaReceipt with Points := 15 } : Receipt).Points ∧
      ({ pizzaReceipt with Points := 15 } : Receipt).Points = exactPoints emptyTables pizzaReceipt ∧
      0 ≤ ({ pizzaReceipt with Points := 15 } : Receipt).Points) :=
  have hfit : exactPoints emptyTables pizzaReceipt < 2 ^ 63 := by
    rw [pizzaReceipt_exactPoints]
    norm_num
  ⟨pizzaReceipt_accepted emptyTables, hfit,
    points_nonneg emptyTables pizzaReceipt _ (pizzaReceipt_accepted emptyTables)
      (by
        intro item hmem _ price hd
        have hi : item = ⟨"Emils Cheese Pizza", "12.25"⟩ := by
          simpa [pizzaReceipt] using hmem
        subst hi
        obtain ⟨hp, hr, -⟩ := pizza_price
        rw [hp] at hd
        cases hd
        rw [hr]
        norm_num)
      hfit⟩

/-- Four successful blocks and an error in the items block give that error. -/
theorem rejected_of_items {T : RangeTables} {r : Receipt} {p1 p2 p3 p4 : Int} {e : GoError}
    (h1 : checkRetailer T r.Retailer 0 = .ok p1) (h2 : checkDate r.PurchaseDate p1 = .ok p2)
    (h3 : checkTime r.PurchaseTime p2 = .ok p3) (h4 : checkTotal r.Total p3 = .ok p4)
    (h5 : checkItems r.Items p4 = .error (.returned e)) :
    validateReceiptPoints T r = .returned (some e) r := by
  simp only [validateReceiptPoints, pointsAfterItems, pointsAfterTotal, pointsAfterTime,
    pointsAfterDate, pointsAfterRetailer, h1, h2, h3, h4, h5]

/-! ### C9: an item price that is not a decimal -/

/-- C9 (the code at the failing input): the price "abc" is not a decimal, and a receipt
whose only item has that price is accepted, with 12 points, when the description is "ab"
(2 bytes, so that the price is never read); with the description "abc" the same receipt
is rejected with the error of the conversion. -/
theorem bad_price_accepted :
    NewFromString "abc" = .error (.decimalError "abc") ∧
    validateReceiptPoints emptyTables (badPriceReceipt "ab") =
      .returned none { badPriceReceipt "ab" with Points := 12 } ∧
    validateReceiptPoints emptyTables (badPriceReceipt "abc") =
      .returned (some (.decimalError "abc")) (badPriceReceipt "abc") := by
  decide

/-! ### The texts that `NewFromString` converts -/

/-- A digit is none of the characters that `NewFromString` treats specially. -/
theorem isDigitChar_ne {c : Char} (h : isDigitChar c = true) :
    c ≠ 'E' ∧ c ≠ 'e' ∧ c ≠ '.' ∧ c ≠ '+' ∧ c ≠ '-' := by
  refine ⟨?_, ?_, ?_, ?_, ?_⟩ <;>
  · rintro rfl
    revert h
    decide

/-- A digit takes one byte. -/
theorem utf8Size_of_isDigitChar {c : Char} (h : isDigitChar c = true) : c.utf8Size = 1 := by
  have h2 : c.toNat ≤ 0x39 := by
    simp only [isDigitChar, Bool.and_eq_true, decide_eq_true_eq] at h
    exact h.2
  have h3 : c.val.toNat ≤ 0x39 := h2
  unfold Char.utf8Size
  have : c.val ≤ 127 := by
    rw [UInt32.le_def]
    show c.val.toNat ≤ 127
    omega
  simp [this]

/-- Without 'E' or 'e' there is no exponent part. -/
theorem splitExponent_of_plain (l : List Char) (h : ∀ c ∈ l, c ≠ 'E' ∧ c ≠ 'e') :
    splitExponent l = (l, none) := by
  induction l with
  | nil => rfl
  | cons c cs ih =>
    have hc := h c (List.mem_cons_self _ _)
    have ih' := ih (fun x hx => h x (List.mem_cons_of_mem _ hx))
    simp only [splitExponent, hc.1, hc.2, or_self, if_false, ih']

/-- A non-empty text of digits is an integer literal. -/
theorem parseSigned_digits (l : List Char) (hne : l ≠ []) (hl : ∀ c ∈ l, isDigitChar c = true) :
    parseSigned l = some (digitsValue l 0 : Int) := by
  cases l with
  | nil => exact absurd rfl hne
  | cons c cs =>
    have hc := isDigitChar_ne (hl c (List.mem_cons_self _ _))
    have hall : (c :: cs).all isDigitChar = true := List.all_eq_true.mpr hl
    simp only [parseSigned, hc.2.2.2.1, hc.2.2.2.2, if_false, hall, if_true]

/-- The integer literals that `parseSigned` reads are the integer texts. -/
theorem parseSigned_iff (s : List Char) (n : Int) :
    parseSigned s = some n ↔ spellsInteger s n := by
  constructor
  · intro h
    cases s with
    | nil => simp [parseSigned] at h
    | cons c rest =>
      simp only [parseSigned] at h
      by_cases hp : c = '+'
      · subst hp
        simp only [if_true] at h
        split at h
        · next hr =>
          simp only [Option.some.injEq] at h
          exact ⟨rest, hr.1, List.all_eq_true.mp hr.2, Or.inr (Or.inl ⟨rfl, h.symm⟩)⟩
        · cases h
      · by_cases hm : c = '-'
        · subst hm
          simp only [hp, if_false, if_true] at h
          split at h
          · next hr =>
            simp only [Option.some.injEq] at h
            exact ⟨rest, hr.1, List.all_eq_true.mp hr.2, Or.inr (Or.inr ⟨rfl, h.symm⟩)⟩
          · cases h
        · simp only [hp, hm, if_false] at h
          split at h
          · next hr =>
            simp only [Option.some.injEq] at h
            exact ⟨c :: rest, by simp, List.all_eq_true.mp hr, Or.inl ⟨rfl, h.symm⟩⟩
          · cases h
  · rintro ⟨digits, hne, hdig, h | h | h⟩
    · obtain ⟨rfl, rfl⟩ := h
      exact parseSigned_digits s hne hdig
    · obtain ⟨rfl, rfl⟩ := h
      have hall : digits.all isDigitChar = true := List.all_eq_true.mpr hdig
      simp [parseSigned, hne, hall]
    · obtain ⟨rfl, rfl⟩ := h
      have hall : digits.all isDigitChar = true := List.all_eq_true.mpr hdig
      simp [parseSigned, hne, hall]

/-- The characters of an integer text are none of 'E', 'e' and '.', and take one byte. -/
theorem spellsInteger_chars {s : List Char} {n : Int} (h : spellsInteger s n) :
    ∀ c ∈ s, c ≠ 'E' ∧ c ≠ 'e' ∧ c ≠ '.' ∧ c.utf8Size = 1 := by
  obtain ⟨digits, -, hdig, h⟩ := h
  have hd : ∀ c ∈ digits, c ≠ 'E' ∧ c ≠ 'e' ∧ c ≠ '.' ∧ c.utf8Size = 1 := by
    intro c hc
    have := isDigitChar_ne (hdig c hc)
    exact ⟨this.1, this.2.1, this.2.2.1, utf8Size_of_isDigitChar (hdig c hc)⟩
  rcases h with ⟨rfl, -⟩ | ⟨rfl, -⟩ | ⟨rfl, -⟩
  · exact hd
  · intro c hc
    rcases List.mem_cons.mp hc with rfl | hc
    · decide
    · exact hd c hc
  · intro c hc
    rcases List.mem_cons.mp hc with rfl | hc
    · decide
    · exact hd c hc

/-- The byte length of a text of one-byte characters is its number of characters. -/
theorem len_of_one_byte (b : List Char) (hb : ∀ c ∈ b, c.utf8Size = 1) :
    len ⟨b⟩ = b.length := by
  show String.utf8ByteSize.go b = b.length
  induction b with
  | nil => rfl
  | cons c cs ih =>
    simp only [String.utf8ByteSize.go, List.length_cons]
    rw [ih (fun x hx => hb x (List.mem_cons_of_mem _ hx)), hb c (List.mem_cons_self _ _)]

/-- The cut at the first 'E' or 'e' of a text whose head has neither. -/
theorem splitExponent_append (m e : List Char) (x : Char) (hm : ∀ c ∈ m, c ≠ 'E' ∧ c ≠ 'e')
    (hx : x = 'e' ∨ x = 'E') : splitExponent (m ++ x :: e) = (m, some e) := by
  induction m with
  | nil =>
    have : x = 'E' ∨ x = 'e' := hx.symm
    simp [splitExponent, this]
  | cons c cs ih =>
    have hc := hm c (List.mem_cons_self _ _)
    have ih' := ih (fun y hy => hm y (List.mem_cons_of_mem _ hy))
    show splitExponent (c :: (cs ++ x :: e)) = (c :: cs, some e)
    simp only [splitExponent, hc.1, hc.2, or_self, if_false, ih']

/-- What the cut at the first 'E' or 'e' returns. -/
theorem splitExponent_spec (l : List Char) :
    (∀ c ∈ (splitExponent l).1, c ≠ 'E' ∧ c ≠ 'e') ∧
    ((splitExponent l).2 = none → l = (splitExponent l).1) ∧
    (∀ e, (splitExponent l).2 = some e →
      ∃ x, (x = 'e' ∨ x = 'E') ∧ l = (splitExponent l).1 ++ x :: e) := by
  induction l with
  | nil => simp [splitExponent]
  | cons c cs ih =>
    by_cases hc : c = 'E' ∨ c = 'e'
    · simp only [splitExponent, hc, if_true]
      refine ⟨by simp, by simp, ?_⟩
      intro e he
      simp only [Option.some.injEq] at he
      subst he
      exact ⟨c, hc.symm, rfl⟩
    · simp only [splitExponent, hc, if_false]
      obtain ⟨h1, h2, h3⟩ := ih
      refine ⟨?_, ?_, ?_⟩
      · intro y hy
        rcases List.mem_cons.mp hy with rfl | hy
        · exact ⟨fun h => hc (Or.inl h), fun h => hc (Or.inr h)⟩
        · exact h1 y hy
      · intro hn
        rw [← h2 hn]
      · intro e he
        obtain ⟨x, hx, hl⟩ := h3 e he
        exact ⟨x, hx, by rw [List.cons_append, ← hl]⟩

/-- The mantissa: cutting a text at its first '.'. Either there is none, or the text is
`a`, the '.', and `b`, with no '.' in `a`. -/
theorem cut_at_dot (m : List Char) :
    ((∀ c ∈ m, c ≠ '.') ∧ m.dropWhile (fun c => c != '.') = []) ∨
    ∃ a b, m = a ++ '.' :: b ∧ (∀ c ∈ a, c ≠ '.') ∧ m.dropWhile (fun c => c != '.') = '.' :: b := by
  induction m with
  | nil => exact Or.inl ⟨by simp, rfl⟩
  | cons c cs ih =>
    by_cases hc : c = '.'
    · subst hc
      exact Or.inr ⟨[], cs, rfl, by simp, by simp [List.dropWhile]⟩
    · have hb : (c != '.') = true := by simpa using hc
      rcases ih with ⟨h1, h2⟩ | ⟨a, b, h1, h2, h3⟩
      · refine Or.inl ⟨?_, ?_⟩
        · intro y hy
          rcases List.mem_cons.mp hy with rfl | hy
          · exact hc
          · exact h1 y hy
        · simp only [List.dropWhile_cons, hb, if_true, h2]
      · refine Or.inr ⟨c :: a, b, by rw [h1]; rfl, ?_, ?_⟩
        · intro y hy
          rcases List.mem_cons.mp hy with rfl | hy
          · exact hc
          · exact h2 y hy
        · simp only [List.dropWhile_cons, hb, if_true, h3]

/-- Removing the '.' from a text that has none. -/
theorem filter_no_dot (a : List Char) (ha : ∀ c ∈ a, c ≠ '.') :
    a.filter (fun c => c != '.') = a := by
  rw [List.filter_eq_self]
  intro c hc
  simpa using ha c hc

/-- The steps of `NewFromString` on a text that it converts. -/
theorem NewFromString_ok_iff (s : String) (d : Decimal) :
    NewFromString s = .ok d ↔
      ∃ exp0 : Int,
        (((splitExponent s.data).2 = none ∧ exp0 = 0) ∨
          ∃ e, (splitExponent s.data).2 = some e ∧ parseSigned e = some exp0 ∧
            -(2 ^ 31) ≤ exp0 ∧ exp0 < 2 ^ 31) ∧
        (splitExponent s.data).1.count '.' ≤ 1 ∧
        parseSigned ((splitExponent s.data).1.filter (fun c => c != '.')) = some d.value ∧
        d.exp = exp0 -
          (len ⟨((splitExponent s.data).1.dropWhile (fun c => c != '.')).drop 1⟩ : Int) ∧
        -(2 ^ 31) ≤ d.exp ∧ d.exp < 2 ^ 31 := by
  unfold NewFromString
  generalize splitExponent s.data = parts
  obtain ⟨m, e⟩ := parts
  dsimp only
  constructor
  · intro h
    split at h
    · cases h
    · next exp0 hexp =>
      split at h
      · cases h
      · next hcount =>
        split at h
        · cases h
        · next v hv =>
          split at h
          · cases h
          · next hrange =>
            simp only [Except.ok.injEq] at h
            subst h
            refine ⟨exp0, ?_, by omega, hv, rfl, by dsimp only; omega, by dsimp only; omega⟩
            cases e with
            | none =>
              simp only [Option.some.injEq] at hexp
              exact Or.inl ⟨rfl, hexp.symm⟩
            | some e =>
              simp only at hexp
              split at hexp
              · cases hexp
              · next n hn =>
                split at hexp
                · next hr =>
                  simp only [Option.some.injEq] at hexp
                  subst hexp
                  exact Or.inr ⟨e, rfl, hn, hr.1, hr.2⟩
                · cases hexp
  · rintro ⟨exp0, hexp, hcount, hv, hx, hlo, hhi⟩
    obtain ⟨v, x⟩ := d
    dsimp only at hv hx hlo hhi
    subst hx
    rcases hexp with ⟨he, h0⟩ | ⟨e', he, hp, h1, h2⟩
    · subst he
      subst h0
      simp only [hv]
      rw [if_neg (by omega), if_neg (by omega)]
    · subst he
      simp only [hp, hv]
      rw [if_pos ⟨h1, h2⟩]
      simp only
      rw [if_neg (by omega), if_neg (by omega)]

/-- Cutting at the '.' a text with no '.' before it. -/
theorem dropWhile_no_dot (a b : List Char) (ha : ∀ c ∈ a, c ≠ '.') :
    (a ++ '.' :: b).dropWhile (fun c => c != '.') = '.' :: b := by
  induction a with
  | nil => simp [List.dropWhile]
  | cons c cs ih =>
    have hb : (c != '.') = true := by simpa using ha c (List.mem_cons_self _ _)
    simp only [List.cons_append, List.dropWhile_cons, hb, if_true]
    exact ih (fun x hx => ha x (List.mem_cons_of_mem _ hx))

/-- The texts that `NewFromString` converts are the decimal texts, and the decimal
returned is the one spelled. -/
theorem NewFromString_iff_spells (s : String) (d : Decimal) :
    NewFromString s = .ok d ↔ spellsDecimal s.data d := by
  rw [NewFromString_ok_iff]
  obtain ⟨hplain, hnone, hsome⟩ := splitExponent_spec s.data
  constructor
  · rintro ⟨exp0, hexp, hcount, hv, hx, hlo, hhi⟩
    have hsp := (parseSigned_iff _ _).mp hv
    have hch := spellsInteger_chars hsp
    have htail : ∃ tail, s.data = (splitExponent s.data).1 ++ tail ∧
        ((tail = [] ∧ exp0 = 0) ∨
          ∃ c expo, (c = 'e' ∨ c = 'E') ∧ tail = c :: expo ∧ spellsInteger expo exp0 ∧
            -(2 ^ 31) ≤ exp0 ∧ exp0 < 2 ^ 31) := by
      rcases hexp with ⟨he, h0⟩ | ⟨e, he, hp, h1, h2⟩
      · exact ⟨[], by rw [List.append_nil]; exact hnone he, Or.inl ⟨rfl, h0⟩⟩
      · obtain ⟨x, hx', hl⟩ := hsome e he
        exact ⟨x :: e, hl, Or.inr ⟨x, e, hx', rfl, (parseSigned_iff _ _).mp hp, h1, h2⟩⟩
    obtain ⟨tail, hs, ht⟩ := htail
    generalize (splitExponent s.data).1 = m at *
    rcases cut_at_dot m with ⟨hno, hdrop⟩ | ⟨a, b, hm, ha, hdrop⟩
    · rw [filter_no_dot m hno] at hsp
      rw [hdrop] at hx
      refine ⟨m, [], tail, exp0, Or.inl ⟨hs, rfl⟩, ht, by rw [List.append_nil]; exact hsp, ?_,
        hlo, hhi⟩
      rw [hx]
      rfl
    · subst hm
      have hb : ∀ c ∈ b, c ≠ '.' := by
        intro c hc hdot
        subst hdot
        rw [List.count_append, List.count_cons_self, List.count_eq_zero_of_not_mem
          (fun h => ha _ h rfl)] at hcount
        have : 0 < b.count '.' := List.count_pos_iff.mpr hc
        omega
      have hf : (a ++ '.' :: b).filter (fun c => c != '.') = a ++ b := by
        rw [List.filter_append, filter_no_dot a ha, List.filter_cons_of_neg (by simp),
          filter_no_dot b hb]
      rw [hf] at hsp hch
      rw [hdrop, List.drop_succ_cons, List.drop_zero,
        len_of_one_byte b (fun c hc => (hch c (List.mem_append_right _ hc)).2.2.2)] at hx
      exact ⟨a, b, tail, exp0, Or.inr hs, ht, hsp, hx, hlo, hhi⟩
  · rintro ⟨a, b, tail, n, hs, ht, hsp, hx, hlo, hhi⟩
    have hch := spellsInteger_chars hsp
    have ha : ∀ c ∈ a, c ≠ 'E' ∧ c ≠ 'e' ∧ c ≠ '.' ∧ c.utf8Size = 1 :=
      fun c hc => hch c (List.mem_append_left _ hc)
    have hb : ∀ c ∈ b, c ≠ 'E' ∧ c ≠ 'e' ∧ c ≠ '.' ∧ c.utf8Size = 1 :=
      fun c hc => hch c (List.mem_append_right _ hc)
    have hm : ∃ m, s.data = m ++ tail ∧ (∀ c ∈ m, c ≠ 'E' ∧ c ≠ 'e') ∧ m.count '.' ≤ 1 ∧
        m.filter (fun c => c != '.') = a ++ b ∧
        (m.dropWhile (fun c => c != '.')).drop 1 = b := by
      rcases hs with ⟨hs, hb0⟩ | hs
      · subst hb0
        refine ⟨a, hs, fun c hc => ⟨(ha c hc).1, (ha c hc).2.1⟩, ?_, ?_, ?_⟩
        · rw [List.count_eq_zero_of_not_mem (fun h => (ha _ h).2.2.1 rfl)]
          omega
        · rw [filter_no_dot a (fun c hc => (ha c hc).2.2.1), List.append_nil]
        · have : a.dropWhile (fun c => c != '.') = [] := by
            rw [List.dropWhile_eq_nil_iff]
            intro c hc
            simpa using (ha c hc).2.2.1
          rw [this]
          rfl
      · refine ⟨a ++ '.' :: b, hs, ?_, ?_, ?_, ?_⟩
        · intro c hc
          rcases List.mem_append.mp hc with h | h
          · exact ⟨(ha c h).1, (ha c h).2.1⟩
          · rcases List.mem_cons.mp h with rfl | h
            · exact ⟨by decide, by decide⟩
            · exact ⟨(hb c h).1, (hb c h).2.1⟩
        · rw [List.count_append, List.count_cons_self,
            List.count_eq_zero_of_not_mem (fun h => (ha _ h).2.2.1 rfl),
            List.count_eq_zero_of_not_mem (fun h => (hb _ h).2.2.1 rfl)]
        · rw [List.filter_append, filter_no_dot a (fun c hc => (ha c hc).2.2.1),
            List.filter_cons_of_neg (by simp), filter_no_dot b (fun c hc => (hb c hc).2.2.1)]
        · rw [dropWhile_no_dot a b (fun c hc => (ha c hc).2.2.1), List.drop_succ_cons,
            List.drop_zero]
    obtain ⟨m, hs', hmp, hcount, hfilter, hdrop⟩ := hm
    clear hplain hnone hsome hs
    generalize s.data = l at hs' ⊢
    subst hs'
    have hsplit : splitExponent (m ++ tail) =
        (m, match tail with | [] => none | _ :: e => some e) := by
      rcases ht with ⟨ht, -⟩ | ⟨c, expo, hc, ht, -⟩
      · subst ht
        rw [List.append_nil]
        exact splitExponent_of_plain m hmp
      · subst ht
        exact splitExponent_append m expo c hmp hc
    rw [hsplit]
    dsimp only
    rw [hfilter, hdrop, len_of_one_byte b (fun c hc => (hb c hc).2.2.2)]
    refine ⟨n, ?_, hcount, (parseSigned_iff _ _).mpr hsp, hx, hlo, hhi⟩
    rcases ht with ⟨ht, h0⟩ | ⟨c, expo, hc, ht, hn, h1, h2⟩
    · subst ht
      exact Or.inl ⟨rfl, h0⟩
    · subst ht
      exact Or.inr ⟨expo, rfl, (parseSigned_iff _ _).mpr hn, h1, h2⟩

/-! ### C10: the total -/

/-- A date that parses is not the empty text. -/
theorem ne_empty_of_parseDate {s : String} {t : GoTime} (h : ParseDate s = .ok t) : s ≠ "" := by
  rintro rfl
  have he : ParseDate "" = .error (.parseError dateLayout "") := by decide
  rw [he] at h
  cases h

/-- A time that parses is not the empty text. -/
theorem ne_empty_of_parseClock {s : String} {t : GoTime} (h : ParseClock s = .ok t) : s ≠ "" := by
  rintro rfl
  have he : ParseClock "" = .error (.parseError timeLayout "") := by decide
  rw [he] at h
  cases h

/-- The date block on a text that parses. -/
theorem checkDate_of_parse {s : String} {t : GoTime} (p : Int) (hd : ParseDate s = .ok t) :
    checkDate s p = .ok (if t.Day % 2 = 1 then wrapInt64 (p + 6) else p) := by
  simp only [checkDate, ne_empty_of_parseDate hd, if_false, hd]
  split <;> rfl

/-- With a non-empty retailer, a date and a time that parse, the first three blocks pass. -/
theorem pointsAfterTime_ok (T : RangeTables) {r : Receipt} {t u : GoTime}
    (hr : r.Retailer ≠ "") (hd : ParseDate r.PurchaseDate = .ok t)
    (ht : ParseClock r.PurchaseTime = .ok u) : ∃ p3, pointsAfterTime T r = .ok p3 := by
  have h1 : pointsAfterRetailer T r = .ok (retailerLoop T r.Retailer.data 0) := by
    simp only [pointsAfterRetailer, checkRetailer, hr, if_false]
  have h2 := checkDate_of_parse (retailerLoop T r.Retailer.data 0) hd
  have h3 := fun p => checkTime_of_parse p (ne_empty_of_parseClock ht) ht
  exact ⟨_, by simp only [pointsAfterTime, pointsAfterDate, h1, h2]; exact h3 _⟩

/-- The error of `NewFromString` names the text given. -/
theorem NewFromString_error {s : String} {e : GoError} (h : NewFromString s = .error e) :
    e = .decimalError s := by
  unfold NewFromString at h
  dsimp only at h
  split at h
  · cases h
    rfl
  · split at h
    · cases h
      rfl
    · split at h
      · cases h
        rfl
      · split at h
        · cases h
          rfl
        · cases h

/-- C10 (as amended): for a receipt with a non-empty retailer, a date and a time that
parse, the call returns the conversion error when the total is not a decimal text, and
the total block passes when the total spells a decimal with an exponent of at most
2^31 - 3. The decimal texts are exactly the texts that `decimal.NewFromString` converts:
a mantissa with at most one '.' that, without the '.', is an optional sign and one or
more digits, optionally followed by 'e' or 'E' and an exponent (an optional sign and one
or more digits, within `int32`), the exponent less the number of characters after the '.'
being within `int32`. The number of fractional digits is not limited to 2: "12.345"
spells 12345 * 10^-3 and a receipt with that total is accepted; "-1.5e3" spells
-15 * 10^2; "abc" is not a decimal text. -/
theorem total_must_convert (T : RangeTables) (r : Receipt) (t u : GoTime)
    (hr : r.Retailer ≠ "") (hd : ParseDate r.PurchaseDate = .ok t)
    (ht : ParseClock r.PurchaseTime = .ok u) :
    (¬ isDecimalText r.Total →
      validateReceiptPoints T r = .returned (some (.decimalError r.Total)) r) ∧
    (∀ d, spellsDecimal r.Total.data d → d.exp ≤ 2 ^ 31 - 3 →
      ∃ p4, pointsAfterTotal T r = .ok p4) ∧
    (∀ s d, NewFromString s = .ok d ↔ spellsDecimal s.data d) ∧
    spellsDecimal "12.345".data ⟨12345, -3⟩ ∧
    validateReceiptPoints T milliReceipt = .returned none { milliReceipt with Points := 12 } ∧
    spellsDecimal "-1.5e3".data ⟨-15, 2⟩ ∧
    ¬ isDecimalText "abc" := by
  obtain ⟨p3, h3⟩ := pointsAfterTime_ok T hr hd ht
  refine ⟨?_, ?_, NewFromString_iff_spells, ?_, ?_, ?_, ?_⟩
  · intro hn
    cases he : NewFromString r.Total with
    | ok d => exact absurd ⟨d, (NewFromString_iff_spells _ _).mp he⟩ hn
    | error e =>
      have := NewFromString_error he
      subst this
      simp only [validateReceiptPoints, pointsAfterItems, pointsAfterTotal, h3, checkTotal, he]
  · intro d hd' hhi
    obtain ⟨a, -, -, p', hp, -⟩ :=
      checkTotal_of_convert p3 ((NewFromString_iff_spells _ _).mpr hd') hhi
    exact ⟨p', by simp only [pointsAfterTotal, h3]; exact hp⟩
  · exact (NewFromString_iff_spells _ _).mp (by decide)
  · have h1 : checkRetailer T "Target" 0 = .ok 6 := rfl
    have h2 : checkDate "2022-01-01" 6 = .ok 12 := by decide
    have h3 : checkTime "13:01" 12 = .ok 12 := by decide
    have h4 : checkTotal "12.345" 12 = .ok 12 := by decide
    have h5 : checkItems milliReceipt.Items 12 = .ok 12 := by decide
    exact accepted_of_blocks h1 h2 h3 h4 h5
  · exact (NewFromString_iff_spells _ _).mp (by decide)
  · rintro ⟨d, hd'⟩
    have habc : NewFromString "abc" = .error (.decimalError "abc") := by decide
    have := (NewFromString_iff_spells "abc" d).mpr hd'
    rw [habc] at this
    cases this

/-- C10 (witness): the sample receipt with total "9.00", and the same receipt with the
total "abc", which is rejected. -/
theorem total_must_convert_witness :
    marketReceipt.Retailer ≠ "" ∧
    ParseDate marketReceipt.PurchaseDate = .ok ⟨2022, 3, 20, 0, 0⟩ ∧
    ParseClock marketReceipt.PurchaseTime = .ok ⟨0, 1, 1, 14, 33⟩ ∧
    ((¬ isDecimalText marketReceipt.Total →
      validateReceiptPoints emptyTables marketReceipt =
        .returned (some (.decimalError marketReceipt.Total)) marketReceipt) ∧
    (∀ d, spellsDecimal marketReceipt.Total.data d → d.exp ≤ 2 ^ 31 - 3 →
      ∃ p4, pointsAfterTotal emptyTables marketReceipt = .ok p4) ∧
    (∀ s d, NewFromString s = .ok d ↔ spellsDecimal s.data d) ∧
    spellsDecimal "12.345".data ⟨12345, -3⟩ ∧
    validateReceiptPoints emptyTables milliReceipt =
      .returned none { milliReceipt with Points := 12 } ∧
    spellsDecimal "-1.5e3".data ⟨-15, 2⟩ ∧
    ¬ isDecimalText "abc") ∧
    validateReceiptPoints emptyTables { marketReceipt with Total := "abc" } =
      .returned (some (.decimalError "abc")) { marketReceipt with Total := "abc" } :=
  have hm := total_must_convert emptyTables marketReceipt ⟨2022, 3, 20, 0, 0⟩ ⟨0, 1, 1, 14, 33⟩
    (by decide) (by decide) (by decide)
  ⟨by decide, by decide, by decide, hm,
    (total_must_convert emptyTables { marketReceipt with Total := "abc" } ⟨2022, 3, 20, 0, 0⟩
      ⟨0, 1, 1, 14, 33⟩ (by decide) (by decide) (by decide)).1 hm.2.2.2.2.2.2⟩

/-- C10 (counterexample): the total "12.345", with three fractional digits, converts, and
the receipt carrying it is accepted with 12 points. -/
theorem three_fraction_digits_accepted :
    NewFromString milliReceipt.Total = .ok ⟨12345, -3⟩ ∧
    validateReceiptPoints emptyTables milliReceipt =
      .returned none { milliReceipt with Points := 12 } := by
  decide

/-! ### Early returns -/

/-- An error in the retailer block is the error returned. -/
theorem rejected_of_retailer {T : RangeTables} {r : Receipt} {e : GoError}
    (h1 : checkRetailer T r.Retailer 0 = .error (.returned e)) :
    validateReceiptPoints T r = .returned (some e) r := by
  simp only [validateReceiptPoints, pointsAfterItems, pointsAfterTotal, pointsAfterTime,
    pointsAfterDate, pointsAfterRetailer, h1]

/-- A successful retailer block and an error in the date block give that error. -/
theorem rejected_of_date {T : RangeTables} {r : Receipt} {p1 : Int} {e : GoError}
    (h1 : checkRetailer T r.Retailer 0 = .ok p1)
    (h2 : checkDate r.PurchaseDate p1 = .error (.returned e)) :
    validateReceiptPoints T r = .returned (some e) r := by
  simp only [validateReceiptPoints, pointsAfterItems, pointsAfterTotal, pointsAfterTime,
    pointsAfterDate, pointsAfterRetailer, h1, h2]

/-- Two successful blocks and an error in the time block give that error. -/
theorem rejected_of_time {T : RangeTables} {r : Receipt} {p1 p2 : Int} {e : GoError}
    (h1 : checkRetailer T r.Retailer 0 = .ok p1) (h2 : checkDate r.PurchaseDate p1 = .ok p2)
    (h3 : checkTime r.PurchaseTime p2 = .error (.returned e)) :
    validateReceiptPoints T r = .returned (some e) r := by
  simp only [validateReceiptPoints, pointsAfterItems, pointsAfterTotal, pointsAfterTime,
    pointsAfterDate, pointsAfterRetailer, h1, h2, h3]

/-- Three successful blocks and an error in the total block give that error. -/
theorem rejected_of_total {T : RangeTables} {r : Receipt} {p1 p2 p3 : Int} {e : GoError}
    (h1 : checkRetailer T r.Retailer 0 = .ok p1) (h2 : checkDate r.PurchaseDate p1 = .ok p2)
    (h3 : checkTime r.PurchaseTime p2 = .ok p3)
    (h4 : checkTotal r.Total p3 = .error (.returned e)) :
    validateReceiptPoints T r = .returned (some e) r := by
  simp only [validateReceiptPoints, pointsAfterItems, pointsAfterTotal, pointsAfterTime,
    pointsAfterDate, pointsAfterRetailer, h1, h2, h3, h4]

/-- The retailer block passes on a non-empty name. -/
theorem checkRetailer_of_ne (T : RangeTables) {s : String} (p : Int) (h : s ≠ "") :
    checkRetailer T s p = .ok (retailerLoop T s.data p) := by
  simp only [checkRetailer, h, if_false]

/-! ### C11: the five validation errors -/

/-- The checks before the item loop run in the order retailer, date, time, total, item
count, and the first one that fails decides the error returned. -/
theorem validation_order (T : RangeTables) (r : Receipt) :
    (r.Retailer = "" →
      validateReceiptPoints T r = .returned (some (.errorsNew "empty name")) r) ∧
    (r.Retailer ≠ "" → r.PurchaseDate = "" →
      validateReceiptPoints T r = .returned (some (.errorsNew "empty date")) r) ∧
    (∀ e, r.Retailer ≠ "" → r.PurchaseDate ≠ "" → ParseDate r.PurchaseDate = .error e →
      validateReceiptPoints T r = .returned (some e) r) ∧
    (∀ t, r.Retailer ≠ "" → ParseDate r.PurchaseDate = .ok t → r.PurchaseTime = "" →
      validateReceiptPoints T r = .returned (some (.errorsNew "empty time")) r) ∧
    (∀ t e, r.Retailer ≠ "" → ParseDate r.PurchaseDate = .ok t → r.PurchaseTime ≠ "" →
      ParseClock r.PurchaseTime = .error e →
      validateReceiptPoints T r = .returned (some e) r) ∧
    (∀ t u e, r.Retailer ≠ "" → ParseDate r.PurchaseDate = .ok t →
      ParseClock r.PurchaseTime = .ok u → NewFromString r.Total = .error e →
      validateReceiptPoints T r = .returned (some e) r) ∧
    (∀ t u d, r.Retailer ≠ "" → ParseDate r.PurchaseDate = .ok t →
      ParseClock r.PurchaseTime = .ok u → NewFromString r.Total = .ok d →
      d.exp ≤ 2 ^ 31 - 3 → r.Items = [] →
      validateReceiptPoints T r = .returned (some (.errorsNew "minimum 1 item")) r) := by
  refine ⟨?_, ?_, ?_, ?_, ?_, ?_, ?_⟩
  · intro hr
    apply rejected_of_retailer
    simp [checkRetailer, hr]
  · intro hr hd
    apply rejected_of_date (checkRetailer_of_ne T 0 hr)
    simp [checkDate, hd]
  · intro e hr hd he
    apply rejected_of_date (checkRetailer_of_ne T 0 hr)
    simp only [checkDate, hd, if_false, he]
  · intro t hr hd ht
    apply rejected_of_time (checkRetailer_of_ne T 0 hr) (checkDate_of_parse _ hd)
    simp [checkTime, ht]
  · intro t e hr hd ht he
    apply rejected_of_time (checkRetailer_of_ne T 0 hr) (checkDate_of_parse _ hd)
    simp only [checkTime, ht, if_false, he]
  · intro t u e hr hd ht he
    apply rejected_of_total (checkRetailer_of_ne T 0 hr) (checkDate_of_parse _ hd)
      (checkTime_of_parse _ (ne_empty_of_parseClock ht) ht)
    simp only [checkTotal, he]
  · intro t u d hr hd ht htot hhi hi
    obtain ⟨p2, h2⟩ : ∃ p2, checkDate r.PurchaseDate (retailerLoop T r.Retailer.data 0) = .ok p2 :=
      ⟨_, checkDate_of_parse _ hd⟩
    obtain ⟨p3, h3⟩ : ∃ p3, checkTime r.PurchaseTime p2 = .ok p3 :=
      ⟨_, checkTime_of_parse _ (ne_empty_of_parseClock ht) ht⟩
    obtain ⟨a, -, -, p4, h4, -⟩ := checkTotal_of_convert p3 htot hhi
    apply rejected_of_items (checkRetailer_of_ne T 0 hr) h2 h3 h4
    simp [checkItems, hi]

/-- C12 (the code at the failing input): with the items ("ab", "abc") and ("abc", "xyz"),
neither price a decimal, the error returned is the conversion error of "xyz", the second
price, and not that of "abc", the first one in sequence order: the first price is never
read. The two examples of the claim do hold: an empty retailer with an empty item list
gives "empty name", and the total "abc" with an empty item list gives the conversion
error of the total. -/
theorem first_bad_price_skipped :
    NewFromString "abc" = .error (.decimalError "abc") ∧
    NewFromString "xyz" = .error (.decimalError "xyz") ∧
    validateReceiptPoints emptyTables twoBadPricesReceipt =
      .returned (some (.decimalError "xyz")) twoBadPricesReceipt ∧
    validateReceiptPoints emptyTables { marketReceipt with Retailer := "", Items := [] } =
      .returned (some (.errorsNew "empty name")) { marketReceipt with Retailer := "", Items := [] } ∧
    validateReceiptPoints emptyTables { marketReceipt with Total := "abc", Items := [] } =
      .returned (some (.decimalError "abc")) { marketReceipt with Total := "abc", Items := [] } := by
  decide

/-! ### Dates -/

/-- The month lengths of package time are those of the Gregorian calendar. -/
theorem daysIn_eq_calendarDays (year month : Nat) (h1 : 1 ≤ month) (h12 : month ≤ 12) :
    daysIn month year = calendarDays year month := by
  have hleap : isLeap year = true ↔ ((year % 4 = 0 ∧ year % 100 ≠ 0) ∨ year % 400 = 0) := by
    simp only [isLeap, Bool.and_eq_true, Bool.or_eq_true, beq_iff_eq, bne_iff_ne, ne_eq]
    omega
  interval_cases month <;> simp [daysIn, calendarDays, hleap]

/-- What `getLongYear` accepts: four digits at the head. -/
theorem getLongYear_eq_some {v rest : List Char} {year : Nat}
    (h : getLongYear v = some (year, rest)) :
    ∃ a b c d, v = a :: b :: c :: d :: rest ∧ isDigitChar a = true ∧ isDigitChar b = true ∧
      isDigitChar c = true ∧ isDigitChar d = true ∧
      year = digitVal a * 1000 + digitVal b * 100 + digitVal c * 10 + digitVal d := by
  rcases v with _ | ⟨a, _ | ⟨b, _ | ⟨c, _ | ⟨d, tl⟩⟩⟩⟩
  all_goals try (simp [getLongYear] at h; done)
  simp only [getLongYear] at h
  split at h
  · next hc =>
    simp only [Bool.and_eq_true] at hc
    simp only [Option.some.injEq, Prod.mk.injEq] at h
    obtain ⟨hy, hr⟩ := h
    subst hr
    exact ⟨a, b, c, d, rfl, hc.1.1.1, hc.1.1.2, hc.1.2, hc.2, hy.symm⟩
  · simp at h

/-- What `getnum` with `fixed` accepts: two digits at the head. -/
theorem getnum_fixed_eq_some {v rest : List Char} {n : Nat}
    (h : getnum v true = some (n, rest)) :
    ∃ a b, v = a :: b :: rest ∧ isDigitChar a = true ∧ isDigitChar b = true ∧
      n = digitVal a * 10 + digitVal b := by
  rcases v with _ | ⟨a, _ | ⟨b, tl⟩⟩
  · simp [getnum] at h
  · simp [getnum] at h
  · simp only [getnum] at h
    split at h
    · next ha =>
      split at h
      · next hb =>
        simp only [Option.some.injEq, Prod.mk.injEq] at h
        obtain ⟨hn, hr⟩ := h
        subst hr
        exact ⟨a, b, rfl, ha, hb, hn.symm⟩
      · simp at h
    · simp at h

/-- What `skipChar` accepts: the literal at the head. -/
theorem skipChar_eq_some {v rest : List Char} {c : Char} (h : skipChar v c = some rest) :
    v = c :: rest := by
  rcases v with _ | ⟨a, tl⟩
  · simp [skipChar] at h
  · simp only [skipChar] at h
    split at h
    · next hc =>
      simp only [Option.some.injEq] at h
      rw [hc, h]
    · simp at h

/-- The texts that the layout "2006-01-02" accepts, and the date each gives. -/
theorem parseDateFields_eq_some {v : List Char} {t : GoTime} (h : parseDateFields v = some t) :
    ∃ y1 y2 y3 y4 m1 m2 d1 d2, v = [y1, y2, y3, y4, '-', m1, m2, '-', d1, d2] ∧
      isDigitChar y1 = true ∧ isDigitChar y2 = true ∧ isDigitChar y3 = true ∧
      isDigitChar y4 = true ∧ isDigitChar m1 = true ∧ isDigitChar m2 = true ∧
      isDigitChar d1 = true ∧ isDigitChar d2 = true ∧
      1 ≤ t.month ∧ t.month ≤ 12 ∧ 1 ≤ t.day ∧ t.day ≤ daysIn t.month t.year ∧
      t = ⟨digitVal y1 * 1000 + digitVal y2 * 100 + digitVal y3 * 10 + digitVal y4,
        digitVal m1 * 10 + digitVal m2, digitVal d1 * 10 + digitVal d2, 0, 0⟩ := by
  unfold parseDateFields at h
  split at h
  · simp at h
  · next year v1 hy =>
    split at h
    · simp at h
    · next v2 hs1 =>
      split at h
      · simp at h
      · next month v3 hm =>
        split at h
        · simp at h
        · next hmr =>
          split at h
          · simp at h
          · next v4 hs2 =>
            split at h
            · simp at h
            · next day v5 hdd =>
              split at h
              · simp at h
              · next hv5 =>
                split at h
                · simp at h
                · next hdr =>
                  simp only [Option.some.injEq] at h
                  obtain ⟨y1, y2, y3, y4, rfl, hy1, hy2, hy3, hy4, rfl⟩ := getLongYear_eq_some hy
                  have e1 := skipChar_eq_some hs1
                  obtain ⟨m1, m2, e2, hm1, hm2, rfl⟩ := getnum_fixed_eq_some hm
                  have e3 := skipChar_eq_some hs2
                  obtain ⟨d1, d2, e4, hd1, hd2, rfl⟩ := getnum_fixed_eq_some hdd
                  have e5 : v5 = [] := by
                    by_contra hc
                    exact hv5 hc
                  subst e5 e4 e3 e2 e1
                  subst h
                  refine ⟨y1, y2, y3, y4, m1, m2, d1, d2, rfl, hy1, hy2, hy3, hy4, hm1, hm2,
                    hd1, hd2, ?_, ?_, ?_, ?_, rfl⟩
                  · simp only; omega
                  · simp only; omega
                  · simp only; omega
                  · simp only; omega

/-- The layout "2006-01-02" accepts exactly the texts YYYY-MM-DD of real calendar dates. -/
theorem parseDate_ok_iff (s : String) : (∃ t, ParseDate s = .ok t) ↔ isCalendarDate s = true := by
  constructor
  · rintro ⟨t, ht⟩
    have hf : parseDateFields s.data = some t := by
      unfold ParseDate at ht
      cases hf : parseDateFields s.data with
      | none => rw [hf] at ht; simp at ht
      | some t' => rw [hf] at ht; simp at ht; rw [ht]
    obtain ⟨y1, y2, y3, y4, m1, m2, d1, d2, hv, hy1, hy2, hy3, hy4, hm1, hm2, hd1, hd2,
      hmlo, hmhi, hdlo, hdhi, rfl⟩ := parseDateFields_eq_some hf
    rw [daysIn_eq_calendarDays _ _ hmlo hmhi] at hdhi
    simp only at hmlo hmhi hdlo hdhi
    simp only [isCalendarDate, hv, hy1, hy2, hy3, hy4, hm1, hm2, hd1, hd2, beq_self_eq_true,
      Bool.and_self, Bool.true_and, decide_eq_true hmlo, decide_eq_true hmhi,
      decide_eq_true hdlo, decide_eq_true hdhi]
  · intro h
    unfold isCalendarDate at h
    split at h
    · next y1 y2 y3 y4 s1 m1 m2 s2 d1 d2 heq =>
      simp only [Bool.and_eq_true, decide_eq_true_eq, beq_iff_eq] at h
      obtain ⟨⟨⟨⟨⟨⟨⟨⟨⟨⟨⟨⟨⟨hy1, hy2⟩, hy3⟩, hy4⟩, hs1⟩, hm1⟩, hm2⟩, hs2⟩, hd1⟩, hd2⟩, hmlo⟩, hmhi⟩,
        hdlo⟩, hdhi⟩ := h
      rw [← daysIn_eq_calendarDays _ _ hmlo hmhi] at hdhi
      have hmr : ¬ (digitVal m1 * 10 + digitVal m2 = 0 ∨ 12 < digitVal m1 * 10 + digitVal m2) := by
        omega
      have hdr : ¬ (digitVal d1 * 10 + digitVal d2 < 1 ∨
          daysIn (digitVal m1 * 10 + digitVal m2)
            (digitVal y1 * 1000 + digitVal y2 * 100 + digitVal y3 * 10 + digitVal y4) <
          digitVal d1 * 10 + digitVal d2) := by
        omega
      refine ⟨⟨digitVal y1 * 1000 + digitVal y2 * 100 + digitVal y3 * 10 + digitVal y4,
        digitVal m1 * 10 + digitVal m2, digitVal d1 * 10 + digitVal d2, 0, 0⟩, ?_⟩
      simp only [ParseDate, heq, parseDateFields, getLongYear, hy1, hy2, hy3, hy4, Bool.and_self,
        if_true, skipChar, hs1, hs2, getnum, hm1, hm2, hd1, hd2, hmr, hdr, if_false, ne_eq,
        not_true_eq_false]
    · simp at h

/-! ### C13: the purchase date -/

/-- C13: for a receipt with a non-empty retailer, the call returns an error (and leaves
the receipt as it was) unless the purchase date is a text YYYY-MM-DD, with four digits of
year, two of month and two of day, that names a real calendar date: month 1 to 12 and a
day within the length of that month, February having 29 days in leap years; for such a
text the date block passes. "2022-02-30", "2023-02-29", "2022-13-01" and "2022-1-1" are
not such texts, "2024-02-29" is. -/
theorem date_must_be_calendar (T : RangeTables) (r : Receipt) (hr : r.Retailer ≠ "") :
    (isCalendarDate r.PurchaseDate = false →
      ∃ e, validateReceiptPoints T r = .returned (some e) r) ∧
    (isCalendarDate r.PurchaseDate = true → ∃ p2, pointsAfterDate T r = .ok p2) ∧
    isCalendarDate "2022-02-30" = false ∧ isCalendarDate "2023-02-29" = false ∧
    isCalendarDate "2022-13-01" = false ∧ isCalendarDate "2022-1-1" = false ∧
    isCalendarDate "2024-02-29" = true := by
  obtain ⟨-, hempty, hparse, -⟩ := validation_order T r
  refine ⟨?_, ?_, by decide, by decide, by decide, by decide, by decide⟩
  · intro hc
    by_cases hd : r.PurchaseDate = ""
    · exact ⟨_, hempty hr hd⟩
    · cases hp : ParseDate r.PurchaseDate with
      | error e => exact ⟨e, hparse e hr hd hp⟩
      | ok t =>
        have := (parseDate_ok_iff r.PurchaseDate).mp ⟨t, hp⟩
        rw [hc] at this
        cases this
  · intro hc
    obtain ⟨t, ht⟩ := (parseDate_ok_iff r.PurchaseDate).mpr hc
    have h2 := checkDate_of_parse (retailerLoop T r.Retailer.data 0) ht
    refine ⟨if t.Day % 2 = 1 then wrapInt64 (retailerLoop T r.Retailer.data 0 + 6)
      else retailerLoop T r.Retailer.data 0, ?_⟩
    simp only [pointsAfterDate, pointsAfterRetailer, checkRetailer_of_ne T 0 hr, h2]

/-- C13 (witness): the sample receipt "M&M Corner Market", dated 2022-03-20. -/
theorem date_must_be_calendar_witness :
    marketReceipt.Retailer ≠ "" ∧
    ((isCalendarDate marketReceipt.PurchaseDate = false →
      ∃ e, validateReceiptPoints emptyTables marketReceipt = .returned (some e) marketReceipt) ∧
    (isCalendarDate marketReceipt.PurchaseDate = true →
      ∃ p2, pointsAfterDate emptyTables marketReceipt = .ok p2) ∧
    isCalendarDate "2022-02-30" = false ∧ isCalendarDate "2023-02-29" = false ∧
    isCalendarDate "2022-13-01" = false ∧ isCalendarDate "2022-1-1" = false ∧
    isCalendarDate "2024-02-29" = true) :=
  ⟨by decide, date_must_be_calendar emptyTables marketReceipt (by decide)⟩

/-! ### Times -/

/-- A digit has a value below ten. -/
theorem digitVal_le_nine {c : Char} (h : isDigitChar c = true) : digitVal c ≤ 9 := by
  simp only [isDigitChar, Bool.and_eq_true, decide_eq_true_eq] at h
  unfold digitVal
  omega

/-- What `getnum` without `fixed` accepts: two digits, or one digit not followed by a
digit. -/
theorem getnum_free_eq_some {v rest : List Char} {n : Nat}
    (h : getnum v false = some (n, rest)) :
    (∃ a b, v = a :: b :: rest ∧ isDigitChar a = true ∧ isDigitChar b = true ∧
      n = digitVal a * 10 + digitVal b) ∨
    (∃ a, v = a :: rest ∧ isDigitChar a = true ∧ n = digitVal a ∧
      ∀ b tl, rest = b :: tl → isDigitChar b = false) := by
  rcases v with _ | ⟨a, _ | ⟨b, tl⟩⟩
  · simp [getnum] at h
  · simp only [getnum] at h
    split at h
    · next ha =>
      simp only [Bool.false_eq_true, if_false, Option.some.injEq, Prod.mk.injEq] at h
      obtain ⟨hn, hr⟩ := h
      subst hr
      exact Or.inr ⟨a, rfl, ha, hn.symm, by intro b tl hc; cases hc⟩
    · simp at h
  · simp only [getnum] at h
    split at h
    · next ha =>
      split at h
      · next hb =>
        simp only [Option.some.injEq, Prod.mk.injEq] at h
        obtain ⟨hn, hr⟩ := h
        subst hr
        exact Or.inl ⟨a, b, rfl, ha, hb, hn.symm⟩
      · next hb =>
        simp only [Bool.false_eq_true, if_false, Option.some.injEq, Prod.mk.injEq] at h
        obtain ⟨hn, hr⟩ := h
        subst hr
        refine Or.inr ⟨a, rfl, ha, hn.symm, ?_⟩
        intro b' tl' hc
        cases hc
        simpa using hb
    · simp at h

/-- The texts that the layout "15:04" accepts: HH:MM, or H:MM with one digit of hour. -/
theorem parseClockFields_eq_some {v : List Char} {t : GoTime} (h : parseClockFields v = some t) :
    (∃ h1 h2 m1 m2, v = [h1, h2, ':', m1, m2] ∧ isDigitChar h1 = true ∧ isDigitChar h2 = true ∧
      isDigitChar m1 = true ∧ isDigitChar m2 = true ∧ digitVal h1 * 10 + digitVal h2 < 24 ∧
      digitVal m1 * 10 + digitVal m2 < 60 ∧
      t = ⟨0, 1, 1, digitVal h1 * 10 + digitVal h2, digitVal m1 * 10 + digitVal m2⟩) ∨
    (∃ h1 m1 m2, v = [h1, ':', m1, m2] ∧ isDigitChar h1 = true ∧
      isDigitChar m1 = true ∧ isDigitChar m2 = true ∧ digitVal m1 * 10 + digitVal m2 < 60 ∧
      t = ⟨0, 1, 1, digitVal h1, digitVal m1 * 10 + digitVal m2⟩) := by
  unfold parseClockFields at h
  split at h
  · simp at h
  · next hour v1 hh =>
    split at h
    · simp at h
    · next hhr =>
      split at h
      · simp at h
      · next v2 hs =>
        split at h
        · simp at h
        · next min v3 hm =>
          split at h
          · simp at h
          · next hmr =>
            split at h
            · simp at h
            · next hv3 =>
              simp only [Option.some.injEq] at h
              have e3 : v3 = [] := by
                by_contra hc
                exact hv3 hc
              have e1 := skipChar_eq_some hs
              obtain ⟨m1, m2, e2, hm1, hm2, rfl⟩ := getnum_fixed_eq_some hm
              subst e3 e2 e1
              rcases getnum_free_eq_some hh with ⟨h1, h2, rfl, hh1, hh2, rfl⟩ |
                ⟨h1, rfl, hh1, rfl, -⟩
              · exact Or.inl ⟨h1, h2, m1, m2, rfl, hh1, hh2, hm1, hm2, by omega, by omega, h.symm⟩
              · exact Or.inr ⟨h1, m1, m2, rfl, hh1, hm1, hm2, by omega, h.symm⟩

/-- The layout "15:04" accepts exactly the texts HH:MM and H:MM with an hour below 24 and a
minute below 60. -/
theorem parseClock_ok_iff (s : String) :
    (∃ t, ParseClock s = .ok t) ↔ (isTwoDigitClock s || isOneDigitClock s) = true := by
  constructor
  · rintro ⟨t, ht⟩
    have hf : parseClockFields s.data = some t := by
      unfold ParseClock at ht
      cases hf : parseClockFields s.data with
      | none => rw [hf] at ht; simp at ht
      | some t' => rw [hf] at ht; simp at ht; rw [ht]
    rcases parseClockFields_eq_some hf with
      ⟨h1, h2, m1, m2, hv, hh1, hh2, hm1, hm2, hhr, hmr, -⟩ | ⟨h1, m1, m2, hv, hh1, hm1, hm2, hmr, -⟩
    · have : isTwoDigitClock s = true := by
        simp only [isTwoDigitClock, hv, hh1, hh2, hm1, hm2, beq_self_eq_true, Bool.and_self,
          decide_eq_true hhr, decide_eq_true hmr]
      simp [this]
    · have : isOneDigitClock s = true := by
        simp only [isOneDigitClock, hv, hh1, hm1, hm2, beq_self_eq_true, Bool.and_self,
          decide_eq_true hmr]
      simp [this]
  · intro h
    rcases Bool.or_eq_true_iff.mp h with h2 | h1
    · unfold isTwoDigitClock at h2
      split at h2
      · next h1 h2' c m1 m2 heq =>
        simp only [Bool.and_eq_true, decide_eq_true_eq, beq_iff_eq] at h2
        obtain ⟨⟨⟨⟨⟨⟨hh1, hh2⟩, hc⟩, hm1⟩, hm2⟩, hhr⟩, hmr⟩ := h2
        refine ⟨⟨0, 1, 1, digitVal h1 * 10 + digitVal h2', digitVal m1 * 10 + digitVal m2⟩, ?_⟩
        have c1 : ¬ 24 ≤ digitVal h1 * 10 + digitVal h2' := by omega
        have c2 : ¬ 60 ≤ digitVal m1 * 10 + digitVal m2 := by omega
        simp only [ParseClock, heq, parseClockFields, getnum, hh1, hh2, if_true, c1, if_false,
          skipChar, hc, hm1, hm2, c2, ne_eq, not_true_eq_false]
      · simp at h2
    · unfold isOneDigitClock at h1
      split at h1
      · next h1' c m1 m2 heq =>
        simp only [Bool.and_eq_true, decide_eq_true_eq, beq_iff_eq] at h1
        obtain ⟨⟨⟨⟨hh1, hc⟩, hm1⟩, hm2⟩, hmr⟩ := h1
        subst hc
        refine ⟨⟨0, 1, 1, digitVal h1', digitVal m1 * 10 + digitVal m2⟩, ?_⟩
        have hcolon : isDigitChar ':' = false := by decide
        have c1 : ¬ 24 ≤ digitVal h1' := by
          have := digitVal_le_nine hh1
          omega
        have c2 : ¬ 60 ≤ digitVal m1 * 10 + digitVal m2 := by omega
        simp only [ParseClock, heq, parseClockFields, getnum, hh1, hcolon, if_true,
          Bool.false_eq_true, if_false, c1, skipChar, hm1, hm2, c2, ne_eq, not_true_eq_false]
      · simp at h1

/-! ### C14: the purchase time -/

/-- C14 (as amended): for a receipt with a non-empty retailer and a date that parses, the
call returns an error (and leaves the receipt as it was) unless the purchase time is a
text HH:MM or H:MM: one or two digits of hour, below 24, ":", and two digits of minute,
below 60; for such a text the time block passes. "24:00", "13:60", "13:01:00" and
"1:01 PM" are not such texts; "9:05" (one digit of hour), "00:00" and "23:59" are. -/
theorem time_must_be_clock (T : RangeTables) (r : Receipt) (t : GoTime)
    (hr : r.Retailer ≠ "") (hd : ParseDate r.PurchaseDate = .ok t) :
    ((isTwoDigitClock r.PurchaseTime || isOneDigitClock r.PurchaseTime) = false →
      ∃ e, validateReceiptPoints T r = .returned (some e) r) ∧
    ((isTwoDigitClock r.PurchaseTime || isOneDigitClock r.PurchaseTime) = true →
      ∃ p3, pointsAfterTime T r = .ok p3) ∧
    (isTwoDigitClock "24:00" || isOneDigitClock "24:00") = false ∧
    (isTwoDigitClock "13:60" || isOneDigitClock "13:60") = false ∧
    (isTwoDigitClock "13:01:00" || isOneDigitClock "13:01:00") = false ∧
    (isTwoDigitClock "1:01 PM" || isOneDigitClock "1:01 PM") = false ∧
    isOneDigitClock "9:05" = true ∧ isTwoDigitClock "00:00" = true ∧
    isTwoDigitClock "23:59" = true := by
  obtain ⟨-, -, -, hempty, hparse, -⟩ := validation_order T r
  refine ⟨?_, ?_, by decide, by decide, by decide, by decide, by decide, by decide, by decide⟩
  · intro hc
    by_cases ht : r.PurchaseTime = ""
    · exact ⟨_, hempty t hr hd ht⟩
    · cases hp : ParseClock r.PurchaseTime with
      | error e => exact ⟨e, hparse t e hr hd ht hp⟩
      | ok u =>
        have := (parseClock_ok_iff r.PurchaseTime).mp ⟨u, hp⟩
        rw [hc] at this
        cases this
  · intro hc
    obtain ⟨u, hu⟩ := (parseClock_ok_iff r.PurchaseTime).mpr hc
    exact pointsAfterTime_ok T hr hd hu

/-- C14 (witness): the sample receipt "M&M Corner Market", bought at 14:33. -/
theorem time_must_be_clock_witness :
    marketReceipt.Retailer ≠ "" ∧
    ParseDate marketReceipt.PurchaseDate = .ok ⟨2022, 3, 20, 0, 0⟩ ∧
    (((isTwoDigitClock marketReceipt.PurchaseTime ||
        isOneDigitClock marketReceipt.PurchaseTime) = false →
      ∃ e, validateReceiptPoints emptyTables marketReceipt = .returned (some e) marketReceipt) ∧
    ((isTwoDigitClock marketReceipt.PurchaseTime ||
        isOneDigitClock marketReceipt.PurchaseTime) = true →
      ∃ p3, pointsAfterTime emptyTables marketReceipt = .ok p3) ∧
    (isTwoDigitClock "24:00" || isOneDigitClock "24:00") = false ∧
    (isTwoDigitClock "13:60" || isOneDigitClock "13:60") = false ∧
    (isTwoDigitClock "13:01:00" || isOneDigitClock "13:01:00") = false ∧
    (isTwoDigitClock "1:01 PM" || isOneDigitClock "1:01 PM") = false ∧
    isOneDigitClock "9:05" = true ∧ isTwoDigitClock "00:00" = true ∧
    isTwoDigitClock "23:59" = true) :=
  ⟨by decide, by decide,
    time_must_be_clock emptyTables marketReceipt ⟨2022, 3, 20, 0, 0⟩ (by decide) (by decide)⟩

/-- C14 (counterexample): "9:05" has one digit of hour, not two, and the receipt bought at
that time, valid otherwise, is accepted with 12 points. -/
theorem one_digit_hour_accepted :
    isTwoDigitClock morningReceipt.PurchaseTime = false ∧
    ParseClock morningReceipt.PurchaseTime = .ok ⟨0, 1, 1, 9, 5⟩ ∧
    validateReceiptPoints emptyTables morningReceipt =
      .returned none { morningReceipt with Points := 12 } := by
  decide

/-! ### C15: a blank description -/

/-- C16: two receipts that agree on retailer, date, time, total and item list reach the
same points or the same abort, whatever their `Points` fields hold (the function reads
neither that field nor the map of receipts): both are rejected with the same error, or
both are accepted with equal points, or both panic. Scoring an already scored receipt
again returns it unchanged. -/
theorem score_depends_on_content (T : RangeTables) (r1 r2 : Receipt)
    (hR : r1.Retailer = r2.Retailer) (hD : r1.PurchaseDate = r2.PurchaseDate)
    (hT : r1.PurchaseTime = r2.PurchaseTime) (hTot : r1.Total = r2.Total)
    (hI : r1.Items = r2.Items) :
    pointsAfterItems T r1 = pointsAfterItems T r2 ∧
    (∀ e, validateReceiptPoints T r1 = .returned (some e) r1 ↔
      validateReceiptPoints T r2 = .returned (some e) r2) ∧
    (∀ points, validateReceiptPoints T r1 = .returned none { r1 with Points := points } ↔
      validateReceiptPoints T r2 = .returned none { r2 with Points := points }) ∧
    (validateReceiptPoints T r1 = .panicked ↔ validateReceiptPoints T r2 = .panicked) ∧
    (∀ r1', validateReceiptPoints T r1 = .returned none r1' →
      validateReceiptPoints T r1' = .returned none r1') := by
  have hp : pointsAfterItems T r1 = pointsAfterItems T r2 := by
    simp only [pointsAfterItems, pointsAfterTotal, pointsAfterTime, pointsAfterDate,
      pointsAfterRetailer, hR, hD, hT, hTot, hI]
  refine ⟨hp, ?_, ?_, ?_, ?_⟩
  · intro e
    simp only [validateReceiptPoints, hp]
    cases pointsAfterItems T r2 with
    | ok p => simp
    | error a => cases a <;> simp
  · intro points
    simp only [validateReceiptPoints, hp]
    cases pointsAfterItems T r2 with
    | ok p =>
      simp only [Outcome.returned.injEq, true_and, Receipt.mk.injEq, and_true]
    | error a => cases a <;> simp
  · simp only [validateReceiptPoints, hp]
    cases pointsAfterItems T r2 with
    | ok p => simp
    | error a => cases a <;> simp
  · intro r1' h1
    obtain ⟨p1, p2, p3, p4, p5, -, -, -, -, h5, -, -, -, -, hr⟩ := accepted_chain h1
    have h5' : pointsAfterItems T r1' = .ok p5 := by
      rw [hr, ← h5]
      rfl
    simp only [validateReceiptPoints, h5']
    rw [hr]

/-- C16 (witness): the sample receipt "M&M Corner Market" with `Points` 0 and with
`Points` 55 beforehand. -/
theorem score_depends_on_content_witness :
    marketReceipt.Retailer = ({ marketReceipt with Points := 55 } : Receipt).Retailer ∧
    marketReceipt.PurchaseDate = ({ marketReceipt with Points := 55 } : Receipt).PurchaseDate ∧
    marketReceipt.PurchaseTime = ({ marketReceipt with Points := 55 } : Receipt).PurchaseTime ∧
    marketReceipt.Total = ({ marketReceipt with Points := 55 } : Receipt).Total ∧
    marketReceipt.Items = ({ marketReceipt with Points := 55 } : Receipt).Items ∧
    (pointsAfterItems emptyTables marketReceipt =
      pointsAfterItems emptyTables { marketReceipt with Points := 55 } ∧
    (∀ e, validateReceiptPoints emptyTables marketReceipt = .returned (some e) marketReceipt ↔
      validateReceiptPoints emptyTables { marketReceipt with Points := 55 } =
        .returned (some e) { marketReceipt with Points := 55 }) ∧
    (∀ points, validateReceiptPoints emptyTables marketReceipt =
        .returned none { marketReceipt with Points := points } ↔
      validateReceiptPoints emptyTables { marketReceipt with Points := 55 } =
        .returned none { ({ marketReceipt with Points := 55 } : Receipt) with Points := points }) ∧
    (validateReceiptPoints emptyTables marketReceipt = .panicked ↔
      validateReceiptPoints emptyTables { marketReceipt with Points := 55 } = .panicked) ∧
    (∀ r1', validateReceiptPoints emptyTables marketReceipt = .returned none r1' →
      validateReceiptPoints emptyTables r1' = .returned none r1')) :=
  ⟨rfl, rfl, rfl, rfl, rfl,
    score_depends_on_content emptyTables marketReceipt { marketReceipt with Points := 55 }
      rfl rfl rfl rfl rfl⟩

/-! ### C17: getPoints -/

/-- C17: for an identifier that is not a key of the map, `getPoints` answers with status
404 and the single member "description", so its body has no member "points", whatever
the map holds; for a key it answers with status 200 and the single member "points"
carrying the `Points` of the stored receipt. -/
theorem getPoints_lookup (Receipts : String → Option Receipt) (id : String) :
    (Receipts id = none →
      getPoints Receipts id =
        ⟨404, [("description", .str "No receipt found for that id")]⟩ ∧
      (∀ v, ("points", v) ∉ (getPoints Receipts id).body) ∧
      getPoints Receipts id ≠ ⟨200, [("points", .int 0)]⟩) ∧
    (∀ receipt, Receipts id = some receipt →
      getPoints Receipts id = ⟨200, [("points", .int receipt.Points)]⟩) := by
  constructor
  · intro hn
    have hg : getPoints Receipts id =
        ⟨404, [("description", .str "No receipt found for that id")]⟩ := by
      simp only [getPoints, hn]
      rfl
    refine ⟨hg, ?_, ?_⟩
    · intro v hv
      rw [hg] at hv
      simp at hv
    · rw [hg]
      decide
  · intro receipt hs
    simp only [getPoints, hs]
    rfl

/-- C17 (witness): a map with the single key "abc"; "xyz" is not found, "abc" gives the
109 points stored. -/
theorem getPoints_lookup_witness :
    sampleReceipts "xyz" = none ∧
    sampleReceipts "abc" = some { marketReceipt with Points := 109 } ∧
    ((sampleReceipts "xyz" = none →
      getPoints sampleReceipts "xyz" =
        ⟨404, [("description", .str "No receipt found for that id")]⟩ ∧
      (∀ v, ("points", v) ∉ (getPoints sampleReceipts "xyz").body) ∧
      getPoints sampleReceipts "xyz" ≠ ⟨200, [("points", .int 0)]⟩) ∧
    (∀ receipt, sampleReceipts "xyz" = some receipt →
      getPoints sampleReceipts "xyz" = ⟨200, [("points", .int receipt.Points)]⟩)) ∧
    getPoints sampleReceipts "abc" = ⟨200, [("points", .int 109)]⟩ :=
  ⟨by decide, by decide, getPoints_lookup sampleReceipts "xyz", by decide⟩

/-! ### C18: what the call writes -/

/-- C18: when the call returns, the receipt it leaves has the retailer, date, time, total
and item list it had before; when it returns an error the receipt is entirely as before,
`Points` included; when it returns nil, `Points` is the value of the local `points`
reached after the item loop. -/
theorem only_points_written (T : RangeTables) (r r' : Receipt) (err : Option GoError)
    (h : validateReceiptPoints T r = .returned err r') :
    r'.Retailer = r.Retailer ∧ r'.PurchaseDate = r.PurchaseDate ∧
    r'.PurchaseTime = r.PurchaseTime ∧ r'.Total = r.Total ∧ r'.Items = r.Items ∧
    (err ≠ none → r'.Points = r.Points ∧ r' = r) ∧
    (err = none → pointsAfterItems T r = .ok r'.Points) := by
  unfold validateReceiptPoints at h
  cases hp : pointsAfterItems T r with
  | ok p =>
    rw [hp] at h
    simp only [Outcome.returned.injEq] at h
    obtain ⟨he, hr⟩ := h
    subst hr
    subst he
    simp
  | error a =>
    rw [hp] at h
    cases a with
    | panicked => simp at h
    | returned e =>
      simp only [Outcome.returned.injEq] at h
      obtain ⟨he, hr⟩ := h
      subst hr
      subst he
      simp

/-- C18 (witness): a receipt with `Points` 7 beforehand whose only price, "abc", is read
and does not convert: the call returns the error and the receipt still has 7 points. -/
theorem only_points_written_witness :
    validateReceiptPoints emptyTables { badPriceReceipt "abc" with Points := 7 } =
        .returned (some (.decimalError "abc")) { badPriceReceipt "abc" with Points := 7 } ∧
    (({ badPriceReceipt "abc" with Points := 7 } : Receipt).Retailer =
        ({ badPriceReceipt "abc" with Points := 7 } : Receipt).Retailer ∧
      ({ badPriceReceipt "abc" with Points := 7 } : Receipt).PurchaseDate =
        ({ badPriceReceipt "abc" with Points := 7 } : Receipt).PurchaseDate ∧
      ({ badPriceReceipt "abc" with Points := 7 } : Receipt).PurchaseTime =
        ({ badPriceReceipt "abc" with Points := 7 } : Receipt).PurchaseTime ∧
      ({ badPriceReceipt "abc" with Points := 7 } : Receipt).Total =
        ({ badPriceReceipt "abc" with Points := 7 } : Receipt).Total ∧
      ({ badPriceReceipt "abc" with Points := 7 } : Receipt).Items =
        ({ badPriceReceipt "abc" with Points := 7 } : Receipt).Items ∧
      (some (GoError.decimalError "abc") ≠ none →
        ({ badPriceReceipt "abc" with Points := 7 } : Receipt).Points =
          ({ badPriceReceipt "abc" with Points := 7 } : Receipt).Points ∧
        ({ badPriceReceipt "abc" with Points := 7 } : Receipt) =
          { badPriceReceipt "abc" with Points := 7 }) ∧
      (some (GoError.decimalError "abc") = none →
        pointsAfterItems emptyTables { badPriceReceipt "abc" with Points := 7 } =
          .ok ({ badPriceReceipt "abc" with Points := 7 } : Receipt).Points)) :=
  have hv : validateReceiptPoints emptyTables { badPriceReceipt "abc" with Points := 7 } =
      .returned (some (.decimalError "abc")) { badPriceReceipt "abc" with Points := 7 } := by
    decide
  ⟨hv, only_points_written emptyTables _ _ _ hv⟩

/-! ### C19: a nil item -/

/-- C19 (the code at the failing input): with an item list holding one nil pointer and
every other field valid, the call neither returns an error nor sets `Points`: it panics
in the item loop, at `item.ShortDescription`. -/
theorem nil_item_panics :
    validateReceiptPoints emptyTables nilItemReceipt = .panicked ∧
    pointsAfterTotal emptyTables nilItemReceipt = .ok 12 ∧
    itemStep 0 none 12 = .error .panicked := by
  decide

/-! ### C20: the order of the items -/

/-- Whether the loop body succeeds on an item depends neither on the index nor on the
points. -/
theorem itemStep_ok_of_ok {x : Option Item} {j : Nat} {q q' : Int}
    (h : itemStep j x q = .ok q') (i : Nat) (p : Int) : ∃ p', itemStep i x p = .ok p' := by
  cases x with
  | none => simp [itemStep] at h
  | some item =>
    rw [itemStep_some] at h ⊢
    split
    · next h3 =>
      rw [if_pos h3] at h
      cases hd : NewFromString item.Price with
      | error e => rw [hd] at h; simp at h
      | ok price =>
        simp only [hd] at h ⊢
        cases hm : fifth.Mul price with
        | none => simp [hm] at h
        | some m => exact ⟨_, rfl⟩
    · exact ⟨_, rfl⟩

/-- The loop runs to its end as soon as the body succeeds on each item somewhere. -/
theorem itemsLoop_ok_of_steps (items : List (Option Item))
    (h : ∀ x ∈ items, ∃ j q q', itemStep j x q = .ok q') (i : Nat) (p : Int) :
    ∃ p', itemsLoop i items p = .ok p' := by
  induction items generalizing i p with
  | nil => exact ⟨p, rfl⟩
  | cons x rest ih =>
    obtain ⟨j, q, q', hs⟩ := h x (List.mem_cons_self _ _)
    obtain ⟨p1, hp1⟩ := itemStep_ok_of_ok hs i p
    obtain ⟨p2, hp2⟩ := ih (fun y hy => h y (List.mem_cons_of_mem _ hy)) (i + 1) p1
    exact ⟨p2, by simp only [itemsLoop, hp1, hp2]⟩

/-- Whether the items block passes is the same for a permutation of the items. -/
theorem checkItems_ok_of_perm {items items' : List (Option Item)} (hperm : items.Perm items')
    {p p' : Int} (h : checkItems items p = .ok p') (q : Int) :
    ∃ q', checkItems items' q = .ok q' := by
  unfold checkItems at h ⊢
  split at h
  · simp at h
  · next hl =>
    rw [if_neg (by rw [← hperm.length_eq]; exact hl)]
    apply itemsLoop_ok_of_steps
    intro x hx
    exact itemsLoop_mem h (hperm.mem_iff.mpr hx)

/-- The blocks before the items do not read the items. -/
theorem pointsAfterTotal_items (T : RangeTables) (r : Receipt) (items' : List (Option Item)) :
    pointsAfterTotal T { r with Items := items' } = pointsAfterTotal T r := rfl

/-- Acceptance of a receipt with its items permuted. -/
theorem accepted_of_perm {T : RangeTables} {r r1 : Receipt} {items' : List (Option Item)}
    (hperm : r.Items.Perm items') (h : validateReceiptPoints T r = .returned none r1) :
    ∃ r2, validateReceiptPoints T { r with Items := items' } = .returned none r2 := by
  obtain ⟨p1, p2, p3, p4, p5, -, -, -, h4, -, -, -, -, hi, -⟩ := accepted_chain h
  obtain ⟨q', hq'⟩ := checkItems_ok_of_perm hperm hi p4
  refine ⟨{ { r with Items := items' } with Points := q' }, ?_⟩
  have h4' : pointsAfterTotal T { r with Items := items' } = .ok p4 := by
    rw [pointsAfterTotal_items]
    exact h4
  simp only [validateReceiptPoints, pointsAfterItems, h4', hq']

/-- C20: for a receipt and a permutation of its items, the call accepts the permuted
receipt exactly when it accepts the original one, and then sets the same `Points`. -/
theorem score_ignores_item_order (T : RangeTables) (r : Receipt) (items' : List (Option Item))
    (hperm : r.Items.Perm items') :
    ((∃ r1, validateReceiptPoints T r = .returned none r1) ↔
      (∃ r2, validateReceiptPoints T { r with Items := items' } = .returned none r2)) ∧
    (∀ r1 r2, validateReceiptPoints T r = .returned none r1 →
      validateReceiptPoints T { r with Items := items' } = .returned none r2 →
      r1.Points = r2.Points) := by
  constructor
  · constructor
    · rintro ⟨r1, h1⟩
      exact accepted_of_perm hperm h1
    · rintro ⟨r2, h2⟩
      have hback : ({ r with Items := items' } : Receipt).Items.Perm r.Items := hperm.symm
      obtain ⟨r1, h1⟩ := accepted_of_perm hback h2
      exact ⟨r1, h1⟩
  · intro r1 r2 h1 h2
    obtain ⟨a1, a2, a3, a4, -, -, -, ha4, -, -, -, -, -, -, -, -, -, -, e1⟩ := accepted_amounts h1
    obtain ⟨b1, b2, b3, b4, -, -, -, hb4, -, -, -, -, -, -, -, -, -, -, e2⟩ := accepted_amounts h2
    rw [pointsAfterTotal_items, ha4] at hb4
    simp only [Except.ok.injEq] at hb4
    have h6 : rule6Amount items' = rule6Amount r.Items := by
      simp only [rule6Amount, hperm.length_eq]
    have h7 : rule7Sum items' = rule7Sum r.Items := by
      simp only [rule7Sum]
      exact ((hperm.map rule7Amount).sum_eq).symm
    rw [e1, e2]
    show _ = wrapInt64 (b4 + rule6Amount items' + rule7Sum items')
    rw [h6, h7, hb4]

/-- C20 (witness): the reference receipt and its five items in reverse order. -/
theorem score_ignores_item_order_witness :
    (classicReceipt 0).Items.Perm classicItems.reverse ∧
    (((∃ r1, validateReceiptPoints emptyTables (classicReceipt 0) = .returned none r1) ↔
      (∃ r2, validateReceiptPoints emptyTables
        { classicReceipt 0 with Items := classicItems.reverse } = .returned none r2)) ∧
    (∀ r1 r2, validateReceiptPoints emptyTables (classicReceipt 0) = .returned none r1 →
      validateReceiptPoints emptyTables
        { classicReceipt 0 with Items := classicItems.reverse } = .returned none r2 →
      r1.Points = r2.Points)) :=
  ⟨(List.reverse_perm classicItems).symm,
    score_ignores_item_order emptyTables (classicReceipt 0) classicItems.reverse
      (List.reverse_perm classicItems).symm⟩

end ReceiptProcessor
